import Mathlib

/-!
The program eataix/csv: upload a CSV file to a new Google Sheets spreadsheet.

Shallow embedding of `src/main.go` and of the library calls it makes.

* `namespace csv` models the part of Go's standard `encoding/csv` reader (the
  line-based reader of Go 1.10 and later) that `prepare` reaches through
  `csv.NewReader(file).ReadAll()`: the library is not part of the repository,
  and the model follows its `readRecord`, `readLine` and `ReadAll`. The reader is the
  one `NewReader` builds (`Comma = ','`, no comment rune, strict quotes, no
  space trimming, `FieldsPerRecord = 0`), the underlying file never returns a
  read error other than end of file, and the positions that only go into the
  text of an error (line and column counters) are left out.
* Everything the operating system, the user or the network decides is an
  oracle of `World`.
* A process is a function from a `State` (readable files, trace of effects)
  to an `Outcome`: it returns a value or the process has exited
  (`log.Fatalf`).

File contents and CSV fields are sequences of characters; the reader only
looks for the ASCII characters `,`, `"`, `\r` and `\n`, so cutting a UTF-8
text at characters or at bytes gives the same fields.
-/

namespace GoCsv

/-! ## Go values -/

/-- A Go slice value: the nil slice, or a slice over some elements. -/
inductive Slice (α : Type) where
  | nil : Slice α
  | mk (elems : List α) : Slice α
  deriving DecidableEq, Repr

namespace Slice

/-- The elements a `range` loop visits. -/
def toList {α : Type} : Slice α → List α
  | nil => []
  | mk l => l

/-- Go `len`. -/
def len {α : Type} (s : Slice α) : Nat := s.toList.length

/-- Go `append(s, x)`: never nil. -/
def append {α : Type} (s : Slice α) (x : α) : Slice α := mk (s.toList ++ [x])

/-- Go `s == nil`. -/
def isNil {α : Type} : Slice α → Bool
  | nil => true
  | mk _ => false

end Slice

/-- A Go `interface{}` value, as far as this program builds one. -/
inductive Iface where
  | null : Iface
  | str (s : String) : Iface
  deriving DecidableEq, Repr

/-! ## encoding/csv -/

namespace csv

/-- The sentinel errors of the reader. `ErrFuel` is not one of them: it stands
for a loop of this model that was cut short, which `ReadAll_total` and
`ReadAll_ne_ErrFuel` show never happens. -/
inductive ErrKind where
  | ErrBareQuote
  | ErrQuote
  | ErrFieldCount
  | ErrFuel
  deriving DecidableEq, Repr

/-- The `error` result of `readRecord`. -/
inductive RecErr where
  | EOF : RecErr
  | parse (e : ErrKind) : RecErr
  deriving DecidableEq, Repr

/-- The reader: `FieldsPerRecord` and, for the `bufio.Reader` it wraps, the
input not yet read. -/
structure Reader where
  FieldsPerRecord : Int
  r : List Char
  deriving DecidableEq, Repr

/-- The reader `csv.NewReader` returns. -/
def NewReader (input : List Char) : Reader :=
  { FieldsPerRecord := 0, r := input }

/-- Go `bufio.Reader.ReadSlice('\n')`: the input up to and including the first
newline, the rest, and whether end of file came first. -/
def readSlice : List Char → List Char × List Char × Bool
  | [] => ([], [], true)
  | c :: cs =>
    if c = '\n' then ([c], cs, false)
    else
      let (l, rest, eof) := readSlice cs
      (c :: l, rest, eof)

/-- Go `lengthNL`. -/
def lengthNL (b : List Char) : Nat :=
  if b.getLast? = some '\n' then 1 else 0

/-- Go `Reader.readLine`, on the unread input: the next line, whether the
error is `io.EOF`, and the input left. -/
def readLine (r : List Char) : List Char × Bool × List Char :=
  let (line0, rest, eof0) := readSlice r
  let readSize := line0.length
  -- if readSize > 0 && err == io.EOF { err = nil; drop a trailing \r }
  let eof := if readSize > 0 then false else eof0
  let line1 :=
    if readSize > 0 ∧ eof0 = true ∧ line0.getLast? = some '\r' then line0.dropLast
    else line0
  -- normalize \r\n to \n
  let n := line1.length
  let line2 :=
    if n ≥ 2 ∧ line1.get? (n - 2) = some '\r' ∧ line1.get? (n - 1) = some '\n' then
      line1.take (n - 2) ++ ['\n']
    else line1
  (line2, eof, rest)

/-- Go `bytes.IndexRune` / `bytes.IndexByte`. -/
def index (c : Char) : List Char → Option Nat
  | [] => none
  | x :: xs => if x = c then some 0 else (index c xs).map (· + 1)

/-- The first loop of `readRecord`: read lines, skipping empty ones. -/
def skipEmpty : Nat → List Char → Option (List Char × Bool × List Char)
  | 0, _ => none
  | fuel + 1, r =>
    let (line, eof, r1) := readLine r
    if eof = false ∧ line.length = lengthNL line then skipEmpty fuel r1
    else some (line, eof, r1)

/-- The `parseField` loop of `readRecord`, on the unread input `r` and the
rest `line` of the current line. `quoted = none`: at the start of a field;
`quoted = some buf`: inside a quoted field whose text so far is `buf`.
`fields` are the finished fields. The result is the fields, the parse error
if any, and the input left. -/
def parseField : Nat → List Char → List Char → Option (List Char) → List (List Char) →
    Option (List (List Char) × Option ErrKind × List Char)
  | 0, _, _, _, _ => none
  | fuel + 1, r, line, none, fields =>
    match line with
    | '"' :: line1 =>
      -- quoted string field
      parseField fuel r line1 (some []) fields
    | _ =>
      -- non-quoted string field
      let i := index ',' line
      let field :=
        match i with
        | some i => line.take i
        | none => line.take (line.length - lengthNL line)
      if (index '"' field).isSome then some (fields, some .ErrBareQuote, r)
      else
        match i with
        | some i => parseField fuel r (line.drop (i + 1)) none (fields ++ [field])
        | none => some (fields ++ [field], none, r)
  | fuel + 1, r, line, some buf, fields =>
    match index '"' line with
    | some i =>
      -- hit next quote
      let buf1 := buf ++ line.take i
      let line1 := line.drop (i + 1)
      match line1 with
      | '"' :: line2 => parseField fuel r line2 (some (buf1 ++ ['"'])) fields
      | ',' :: line2 => parseField fuel r line2 none (fields ++ [buf1])
      | _ =>
        if lengthNL line1 = line1.length then some (fields ++ [buf1], none, r)
        else some (fields, some .ErrQuote, r)
    | none =>
      if line.length > 0 then
        -- hit end of line: copy all data so far and read the next line
        let (line1, _, r1) := readLine r
        parseField fuel r1 line1 (some (buf ++ line)) fields
      else
        -- abrupt end of file
        some (fields, some .ErrQuote, r)

/-- Go `Reader.readRecord`, with `fuel` bounding its two loops. -/
def readRecordFuel (fuel : Nat) (rd : Reader) :
    Option (List String × Option RecErr × Reader) :=
  match skipEmpty fuel rd.r with
  | none => none
  | some (line, eof, r1) =>
    if eof then some ([], some .EOF, { rd with r := r1 })
    else
      match parseField fuel r1 line none [] with
      | none => none
      | some (fields, err, r2) =>
        -- create a single string and create slices out of it
        let dst := fields.map String.mk
        if rd.FieldsPerRecord > 0 then
          if (dst.length : Int) ≠ rd.FieldsPerRecord ∧ err = none then
            some (dst, some (.parse .ErrFieldCount), { rd with r := r2 })
          else some (dst, err.map .parse, { rd with r := r2 })
        else if rd.FieldsPerRecord = 0 then
          some (dst, err.map .parse, { FieldsPerRecord := dst.length, r := r2 })
        else some (dst, err.map .parse, { rd with r := r2 })

/-- The loop of `Reader.ReadAll`. -/
def readAllLoop : Nat → Reader → List (List String) →
    Option (List (List String) × Option ErrKind)
  | 0, _, _ => none
  | fuel + 1, rd, records =>
    match readRecordFuel (rd.r.length + 2) rd with
    | none => none
    | some (record, err, rd1) =>
      match err with
      | some .EOF => some (records, none)
      | some (.parse e) => some ([], some e)
      | none => readAllLoop fuel rd1 (records ++ [record])

/-- Go `Reader.ReadAll`: the records and the error. The loops get as many
rounds as the unread input has characters, and two more; `ErrFuel` stands for
a loop that needs more. -/
def Reader.ReadAll (rd : Reader) : List (List String) × Option ErrKind :=
  match readAllLoop (rd.r.length + 2) rd [] with
  | some res => res
  | none => ([], some .ErrFuel)

end csv

/-! ## Library values -/

/-- Go `error` values this program sees. -/
inductive Error where
  /-- An `*os.PathError` of `os.Open`, `os.OpenFile` or `ioutil.ReadFile`. -/
  | os (op : String) (path : String) : Error
  /-- An error of the csv reader. -/
  | csv (e : csv.ErrKind) : Error
  /-- An error of `encoding/json`, `fmt.Scan`, `oauth2`, `google` or `sheets`. -/
  | lib (msg : String) : Error
  /-- The value of `fmt.Errorf(format, [arg,] cause)`. -/
  | errorf (format : String) (arg : Option String) (cause : Error) : Error
  deriving DecidableEq, Repr

/-- Modelled from the spec: the declaration of `oauth2.Token` is not in src/;
the spec lists an access token string, a refresh token string, an expiry
timestamp and a scope set. -/
structure Token where
  AccessToken : String
  RefreshToken : String
  Expiry : Int
  Scopes : List String
  deriving DecidableEq, Repr

/-- Modelled from the spec: the declaration of `oauth2.Config` is not in
src/; the spec says it is parsed from the client-secret document and scoped to
one permission scope. -/
structure Config where
  Secret : String
  Scopes : List String
  deriving DecidableEq, Repr

/-- The `*http.Client` of `config.Client(ctx, tok)`: bound to the
configuration and to the token pointer it was given. -/
structure Client where
  config : Config
  tok : Option Token
  deriving DecidableEq, Repr

/-- The `*sheets.Service` of `sheets.New(client)`. -/
structure Service where
  client : Client
  deriving DecidableEq, Repr

/-- The fields of `sheets.Spreadsheet` this program sets or reads; the rest
keep their zero values. -/
structure Spreadsheet where
  Title : String
  SpreadsheetId : String
  SpreadsheetUrl : String
  deriving DecidableEq, Repr

/-- The fields of `sheets.ValueRange` this program sets. -/
structure ValueRange where
  Range : String
  Values : Slice (Slice Iface)
  deriving DecidableEq, Repr

/-- The fields of `sheets.BatchUpdateValuesRequest` this program sets. -/
structure BatchUpdateValuesRequest where
  ValueInputOption : String
  Data : List ValueRange
  deriving DecidableEq, Repr

/-- The `*sheets.BatchUpdateValuesResponse`, which the program only prints. -/
structure BatchUpdateValuesResponse where
  SpreadsheetId : String
  TotalUpdatedCells : Nat
  deriving DecidableEq, Repr

/-! ## The process -/

/-- One call the process makes, with the error it returned (`none`: nil). -/
inductive Event where
  | ReadFile (path : String) (err : Option Error) : Event
  | ConfigFromJSON (scope : String) (err : Option Error) : Event
  | Open (path : String) (err : Option Error) : Event
  | Decode (path : String) (err : Option Error) : Event
  /-- Entry into a function of main.go. -/
  | Call (fn : String) : Event
  | Printf (format : String) (arg : String) : Event
  | Scan (err : Option Error) : Event
  | Exchange (authCode : String) (err : Option Error) : Event
  | OpenFile (path : String) (err : Option Error) : Event
  | Encode (path : String) (token : Token) (err : Option Error) : Event
  | Client (tok : Option Token) : Event
  | New (err : Option Error) : Event
  | Create (title : String) (err : Option Error) : Event
  | LogPrintf (format : String) (arg : String) : Event
  | ReadAll (path : String) (err : Option Error) : Event
  | BatchUpdate (spreadsheetId : String) (req : BatchUpdateValuesRequest)
      (err : Option Error) : Event
  | PrintResp (resp : BatchUpdateValuesResponse) : Event
  | Fatalf (format : String) (err : Error) : Event
  deriving DecidableEq, Repr

/-- What the operating system, the user and the network answer. -/
structure World where
  /-- The outcome of `os.OpenFile(path, O_RDWR|O_CREATE|O_TRUNC, 0600)`. -/
  OpenFile : String → Option Error
  /-- The outcome of `json.NewEncoder(f).Encode(token)` on the file opened at the path:
  the text that reached the file and the error. -/
  Encode : String → Token → String × Option Error
  /-- The outcome of `json.NewDecoder(f).Decode(tok)` on a file with this content. -/
  Decode : String → Token × Option Error
  ConfigFromJSON : String → String → Except Error Config
  AuthCodeURL : Config → String
  /-- The outcome of `fmt.Scan(&authCode)`. -/
  Scan : Except Error String
  Exchange : Config → String → Except Error Token
  New : Client → Except Error Service
  Create : Service → Spreadsheet → Except Error Spreadsheet
  BatchUpdate : Service → String → BatchUpdateValuesRequest →
    Except Error BatchUpdateValuesResponse

/-- The state of a run: the files that can be opened for reading, with their
content, and the calls made so far. -/
structure State where
  files : String → Option String
  trace : List Event

/-- How a computation ends: it returns, or the process has exited. -/
inductive Outcome (α : Type) where
  | ret (a : α) (s : State) : Outcome α
  | exit (code : Nat) (s : State) : Outcome α

/-- The state a computation ends in. -/
def Outcome.state {α : Type} : Outcome α → State
  | .ret _ s => s
  | .exit _ s => s

/-- The value a computation returns, if it returns. -/
def Outcome.value? {α : Type} : Outcome α → Option α
  | .ret a _ => some a
  | .exit _ _ => none

/-- The exit code, if the process exited. -/
def Outcome.code? {α : Type} : Outcome α → Option Nat
  | .ret _ _ => none
  | .exit c _ => some c

/-- A computation of the process. -/
def Proc (α : Type) : Type := State → Outcome α

instance : Monad Proc where
  pure a := fun s => .ret a s
  bind p f := fun s =>
    match p s with
    | .ret a s1 => f a s1
    | .exit c s1 => .exit c s1

/-- Record a call. -/
def emit (e : Event) : Proc Unit :=
  fun s => .ret () { s with trace := s.trace ++ [e] }

/-- The files as they are now. -/
def getFiles : Proc (String → Option String) :=
  fun s => .ret s.files s

/-- The file at `path` now has content `c`. -/
def setFile (path : String) (c : String) : Proc Unit :=
  fun s => .ret () { s with files := fun p => if p = path then some c else s.files p }

/-- Go `log.Fatalf(format, err)`: log, then `os.Exit(1)`. -/
def fatalf {α : Type} (format : String) (err : Error) : Proc α :=
  fun s => .exit 1 { s with trace := s.trace ++ [.Fatalf format err] }

def tokFile : String := "token.json"

def csvFile : String := "file.csv"

/-- Go `os.Open(file)` followed by reading the file: its content or the error. -/
def osOpen (file : String) : Proc (Except Error String) := do
  match (← getFiles) file with
  | none =>
    emit (.Open file (some (.os "open" file)))
    return .error (.os "open" file)
  | some content =>
    emit (.Open file none)
    return .ok content

/-- Go `config.Client(ctx, tok)`. -/
def Config.Client (config : Config) (tok : Option Token) : Proc Client := do
  emit (.Client tok)
  return { config := config, tok := tok }

def tokenFromFile (w : World) (file : String) : Proc (Option Token × Option Error) := do
  match (← osOpen file) with
  | .error err => return (none, some err)
  | .ok f =>
    let (tok, err) := w.Decode f
    emit (.Decode file err)
    return (some tok, err)

def getTokenFromWeb (w : World) (config : Config) : Proc Token := do
  emit (.Call "getTokenFromWeb")
  let authURL := w.AuthCodeURL config
  emit (.Printf
    "Go to the following link in your browser then type the authorization code: \n%v\n"
    authURL)
  match w.Scan with
  | .error err =>
    emit (.Scan (some err))
    fatalf "Unable to read authorization code: %v" err
  | .ok authCode =>
    emit (.Scan none)
    match w.Exchange config authCode with
    | .error err =>
      emit (.Exchange authCode (some err))
      fatalf "Unable to retrieve token from web: %v" err
    | .ok tok =>
      emit (.Exchange authCode none)
      return tok

/-- Saves a token to a file path. The result of `Encode` is dropped. -/
def saveToken (w : World) (path : String) (token : Token) : Proc Unit := do
  emit (.Call "saveToken")
  emit (.Printf "Saving credential file to: %s\n" path)
  match w.OpenFile path with
  | some err =>
    emit (.OpenFile path (some err))
    fatalf "Unable to cache oauth token: %v" err
  | none =>
    emit (.OpenFile path none)
    -- O_CREATE|O_TRUNC: the file exists and is empty
    setFile path ""
    let (written, err) := w.Encode path token
    emit (.Encode path token err)
    setFile path written

def getClient (w : World) (config : Config) : Proc Client := do
  let (tok, err) ← tokenFromFile w tokFile
  match err with
  | some _ =>
    let tok ← getTokenFromWeb w config
    saveToken w tokFile tok
    config.Client (some tok)
  | none => config.Client tok

/-- The two loops of `prepare`: every field is appended to its row, every row
to the grid. -/
def copyRecords (record : List (List String)) : Slice (Slice Iface) :=
  record.foldl
    (fun all value =>
      all.append (value.foldl (fun row item => row.append (Iface.str item)) Slice.nil))
    Slice.nil

def prepare (filename : String) : Proc (Slice (Slice Iface) × Option Error) := do
  match (← osOpen filename) with
  | .error err =>
    return (Slice.nil, some (.errorf "os.Open(%q) failed: %v" (some filename) err))
  | .ok file =>
    let reader := csv.NewReader file.toList
    let (record, err) := reader.ReadAll
    emit (.ReadAll filename (err.map Error.csv))
    match err with
    | some err =>
      return (Slice.nil, some (.errorf "reader.RealdAll() failed: %v" none (.csv err)))
    | none => return (copyRecords record, none)

def main (w : World) : Proc Unit := do
  match (← getFiles) "credentials.json" with
  | none =>
    emit (.ReadFile "credentials.json" (some (.os "open" "credentials.json")))
    fatalf "Unable to read client secret file: %v" (.os "open" "credentials.json")
  | some b =>
    emit (.ReadFile "credentials.json" none)
    match w.ConfigFromJSON b "https://www.googleapis.com/auth/spreadsheets" with
    | .error err =>
      emit (.ConfigFromJSON "https://www.googleapis.com/auth/spreadsheets" (some err))
      fatalf "Unable to parse client secret file to config: %v" err
    | .ok config =>
      emit (.ConfigFromJSON "https://www.googleapis.com/auth/spreadsheets" none)
      let client ← getClient w config
      match w.New client with
      | .error err =>
        emit (.New (some err))
        fatalf "Unable to retrieve Sheets client: %v" err
      | .ok srv =>
        emit (.New none)
        match w.Create srv
            { Title := "Summary", SpreadsheetId := "", SpreadsheetUrl := "" } with
        | .error err =>
          emit (.Create "Summary" (some err))
          fatalf "Failed to create a spreadsheet: %v" err
        | .ok creationResp =>
          emit (.Create "Summary" none)
          emit (.LogPrintf "Created %s" creationResp.SpreadsheetUrl)
          let (data, err) ← prepare csvFile
          match err with
          | some err => fatalf "Failed to read the csv file: %v" err
          | none =>
            let req : BatchUpdateValuesRequest :=
              { ValueInputOption := "RAW", Data := [{ Range := "A1", Values := data }] }
            match w.BatchUpdate srv creationResp.SpreadsheetId req with
            | .error err =>
              emit (.BatchUpdate creationResp.SpreadsheetId req (some err))
              fatalf "BatchUpdate() failed: %v" err
            | .ok updateResp =>
              emit (.BatchUpdate creationResp.SpreadsheetId req none)
              emit (.PrintResp updateResp)


/-! ## The token as a JSON document -/

namespace json

/-- JSON white space. -/
def isWs (c : Char) : Bool :=
  c = ' ' || c = '\n' || c = '\r' || c = '\t'

/-- Skip white space. -/
def skipWs : List Char → List Char
  | [] => []
  | c :: rest => if isWs c then skipWs rest else c :: rest

/-- The hexadecimal digit of a number below 16. -/
def hexDigit (d : Nat) : Char :=
  if d < 10 then Char.ofNat (48 + d) else Char.ofNat (87 + d)

/-- The value of a hexadecimal digit. -/
def hexValue (c : Char) : Option Nat :=
  if 48 ≤ c.toNat ∧ c.toNat ≤ 57 then some (c.toNat - 48)
  else if 97 ≤ c.toNat ∧ c.toNat ≤ 102 then some (c.toNat - 87)
  else if 65 ≤ c.toNat ∧ c.toNat ≤ 70 then some (c.toNat - 55)
  else none

/-- The value of four hexadecimal digits. -/
def hex4 (a b c d : Char) : Option Nat :=
  match hexValue a, hexValue b, hexValue c, hexValue d with
  | some x, some y, some z, some u => some (((x * 16 + y) * 16 + z) * 16 + u)
  | _, _, _, _ => none

/-- One character inside a JSON string: the quote, the backslash and the
control characters are escaped. -/
def escapeChar (c : Char) : List Char :=
  if c = '"' then ['\\', '"']
  else if c = '\\' then ['\\', '\\']
  else if c.toNat < 32 then
    ['\\', 'u', '0', '0', hexDigit (c.toNat / 16), hexDigit (c.toNat % 16)]
  else [c]

/-- The characters of a JSON string, between its quotes. -/
def escapeText : List Char → List Char
  | [] => []
  | c :: cs => escapeChar c ++ escapeText cs

/-- A JSON string. -/
def quoteText (s : List Char) : List Char :=
  '"' :: (escapeText s ++ ['"'])

/-- The character a short escape stands for. -/
def unescape (e : Char) : Option Char :=
  if e = '"' then some '"'
  else if e = '\\' then some '\\'
  else if e = '/' then some '/'
  else if e = 'b' then some (Char.ofNat 8)
  else if e = 'f' then some (Char.ofNat 12)
  else if e = 'n' then some '\n'
  else if e = 'r' then some '\r'
  else if e = 't' then some '\t'
  else none

/-- Read a JSON string after its opening quote: its characters and the input
after the closing quote. An unescaped control character, an unknown escape
and a `\u` escape of a surrogate half are errors. -/
def stringBody : List Char → Option (List Char × List Char)
  | [] => none
  | c :: rest =>
    if c = '"' then some ([], rest)
    else if c = '\\' then
      match rest with
      | [] => none
      | e :: rest1 =>
        if e = 'u' then
          match rest1 with
          | a :: b :: c2 :: d :: rest2 =>
            match hex4 a b c2 d with
            | some n =>
              if n < 0xd800 ∨ 0xdfff < n then
                match stringBody rest2 with
                | some (s, r) => some (Char.ofNat n :: s, r)
                | none => none
              else none
            | none => none
          | _ => none
        else
          match unescape e with
          | some ch =>
            match stringBody rest1 with
            | some (s, r) => some (ch :: s, r)
            | none => none
          | none => none
    else if c.toNat < 32 then none
    else
      match stringBody rest with
      | some (s, r) => some (c :: s, r)
      | none => none

/-- Read a JSON string. -/
def parseString : List Char → Option (String × List Char)
  | '"' :: body =>
    match stringBody body with
    | some (s, r) => some (String.mk s, r)
    | none => none
  | _ => none

/-- The decimal digit of a number below 10. -/
def digitChar (d : Nat) : Char := Char.ofNat (48 + d)

/-- The decimal digits of `n` in front of `acc`; `fuel` bounds their number. -/
def natTextAux : Nat → Nat → List Char → List Char
  | 0, _, acc => acc
  | fuel + 1, n, acc =>
    if n < 10 then digitChar n :: acc
    else natTextAux fuel (n / 10) (digitChar (n % 10) :: acc)

/-- A natural number in decimal. -/
def natText (n : Nat) : List Char := natTextAux (n + 1) n []

/-- A JSON integer. -/
def intText (n : Int) : List Char :=
  if n < 0 then '-' :: natText n.natAbs else natText n.natAbs

/-- The leading decimal digits of the input, and the rest. -/
def takeDigits : List Char → List Char × List Char
  | [] => ([], [])
  | c :: rest =>
    if 48 ≤ c.toNat ∧ c.toNat ≤ 57 then ((c :: (takeDigits rest).1), (takeDigits rest).2)
    else ([], c :: rest)

/-- The number a sequence of decimal digits stands for. -/
def digitsValue (l : List Char) : Nat :=
  l.foldl (fun a c => 10 * a + (c.toNat - 48)) 0

/-- Whether the input goes on with a fraction or an exponent. -/
def isFraction : List Char → Bool
  | c :: _ => c = '.' || c = 'e' || c = 'E'
  | [] => false

/-- Read a JSON number that is an integer; a fraction or an exponent is an
error. -/
def parseInt (l : List Char) : Option (Int × List Char) :=
  match l with
  | '-' :: rest =>
    if (takeDigits rest).1 = [] ∨ isFraction (takeDigits rest).2 then none
    else some (-(digitsValue (takeDigits rest).1 : Int), (takeDigits rest).2)
  | _ =>
    if (takeDigits l).1 = [] ∨ isFraction (takeDigits l).2 then none
    else some ((digitsValue (takeDigits l).1 : Int), (takeDigits l).2)

/-- What follows the first element of a JSON array of strings. -/
def stringsTail : List String → List Char
  | [] => [']']
  | s :: t => ',' :: (quoteText s.toList ++ stringsTail t)

/-- A JSON array of strings. -/
def stringsText : List String → List Char
  | [] => ['[', ']']
  | s :: t => '[' :: (quoteText s.toList ++ stringsTail t)

/-- Read the elements of a JSON array of strings, the first of which starts
the input, up to the closing bracket. -/
def stringsLoop : Nat → List Char → List String → Option (List String × List Char)
  | 0, _, _ => none
  | fuel + 1, l, acc =>
    match parseString l with
    | none => none
    | some (s, rest) =>
      match skipWs rest with
      | ',' :: rest1 => stringsLoop fuel (skipWs rest1) (acc ++ [s])
      | ']' :: rest1 => some (acc ++ [s], rest1)
      | _ => none

/-- Read a JSON array of strings. -/
def parseStrings : List Char → Option (List String × List Char)
  | '[' :: rest =>
    match skipWs rest with
    | ']' :: rest1 => some ([], rest1)
    | l1 => stringsLoop l1.length l1 []
  | _ => none

/-- The token `Decode` starts from: the zero value. -/
def zeroToken : Token :=
  { AccessToken := "", RefreshToken := "", Expiry := 0, Scopes := [] }

/-- Read the value of the member `key` into the token. A member the token
does not have is an error. -/
def setMember (key : List Char) (l : List Char) (tok : Token) : Option (Token × List Char) :=
  if key = "access_token".toList then
    match parseString l with
    | some (v, r) => some ({ tok with AccessToken := v }, r)
    | none => none
  else if key = "refresh_token".toList then
    match parseString l with
    | some (v, r) => some ({ tok with RefreshToken := v }, r)
    | none => none
  else if key = "expiry".toList then
    match parseInt l with
    | some (v, r) => some ({ tok with Expiry := v }, r)
    | none => none
  else if key = "scopes".toList then
    match parseStrings l with
    | some (v, r) => some ({ tok with Scopes := v }, r)
    | none => none
  else none

/-- Read the members of a JSON object, the first of which starts the input,
up to the closing brace. -/
def membersLoop : Nat → List Char → Token → Option (Token × List Char)
  | 0, _, _ => none
  | fuel + 1, l, tok =>
    match l with
    | '"' :: body =>
      match stringBody body with
      | none => none
      | some (key, rest) =>
        match skipWs rest with
        | ':' :: rest1 =>
          match setMember key (skipWs rest1) tok with
          | none => none
          | some (tok1, rest2) =>
            match skipWs rest2 with
            | ',' :: rest3 => membersLoop fuel (skipWs rest3) tok1
            | '}' :: rest3 => some (tok1, rest3)
            | _ => none
        | _ => none
    | _ => none

/-- Read a JSON object into a token. -/
def parseObject (l : List Char) : Option (Token × List Char) :=
  match skipWs l with
  | '{' :: rest =>
    match skipWs rest with
    | '}' :: rest1 => some (zeroToken, rest1)
    | l1 => membersLoop l1.length l1 zeroToken
  | _ => none

/-- Modelled from the spec: `json.NewEncoder(f).Encode(token)`, which is not in
src/, as is the declaration of `oauth2.Token` with its field tags. The spec
says the token is persisted as a JSON document and lists its fields: the
document is one JSON object with the members `access_token` and
`refresh_token` (strings), `expiry` (an integer) and `scopes` (an array of
strings), followed by a line break. -/
def encode (t : Token) : String :=
  String.mk
    ('{' :: (quoteText "access_token".toList ++ ':' :: (quoteText t.AccessToken.toList ++
      ',' :: (quoteText "refresh_token".toList ++ ':' :: (quoteText t.RefreshToken.toList ++
      ',' :: (quoteText "expiry".toList ++ ':' :: (intText t.Expiry ++
      ',' :: (quoteText "scopes".toList ++ ':' :: (stringsText t.Scopes ++
      ['}', '\n'])))))))))

/-- Modelled from the spec: `json.NewDecoder(f).Decode(tok)`, which is not in
src/. The spec says it decodes JSON into the token shape and surfaces bad JSON
as an error: it reads one JSON object, its members in any order and with JSON
white space between the tokens, into the zero token; anything else is an
error. -/
def decode (content : String) : Token × Option Error :=
  match parseObject content.toList with
  | some (tok, _) => (tok, none)
  | none => (zeroToken, some (.lib "invalid JSON"))

end json

/-- Modelled from the spec: the world `w` with the JSON codec of the token.
`Encode` puts the JSON document of the token into the file unless `w` makes
the write fail, and `Decode` reads JSON documents. -/
def jsonWorld (w : World) : World :=
  { w with
    Encode := fun p t =>
      match (w.Encode p t).2 with
      | none => (json.encode t, none)
      | some err => ((w.Encode p t).1, some err)
    Decode := json.decode }

/-! ## Reading the trace -/

/-- The calls a computation adds to the trace when started in `s`. -/
def eventsOf {α : Type} (p : Proc α) (s : State) : List Event :=
  (p s).state.trace.drop s.trace.length

/-- A write of a token into a file. -/
def isEncode (path : String) : Event → Bool
  | .Encode p _ _ => p = path
  | _ => false

/-- An entry into the authorization flow. -/
def isAuthFlow : Event → Bool
  | .Call fn => fn = "getTokenFromWeb"
  | _ => false

/-- A creation or truncation of a file. -/
def isOpenFile (path : String) : Event → Bool
  | .OpenFile p _ => p = path
  | _ => false

/-! ## Sample worlds -/

/-- A state in which `file.csv` has the given content and nothing else exists. -/
def csvOnly (content : String) : State where
  files := fun p => if p = csvFile then some content else none
  trace := []


def sampleToken : Token :=
  { AccessToken := "at", RefreshToken := "rt", Expiry := 1700000000, Scopes := ["spreadsheets"] }

def sampleConfig : Config :=
  { Secret := "secret", Scopes := ["https://www.googleapis.com/auth/spreadsheets"] }

/-- A world in which every call succeeds: files can be created, the token is
written as the text `token:at` and read back from it, the user types `code`,
and the service answers. -/
def sampleWorld : World where
  OpenFile := fun _ => none
  Encode := fun _ t => ("token:" ++ t.AccessToken, none)
  Decode := fun c =>
    if c = "token:at" then (sampleToken, none)
    else ({ AccessToken := "", RefreshToken := "", Expiry := 0, Scopes := [] },
      some (.lib "invalid character"))
  ConfigFromJSON := fun b sc => .ok { Secret := b, Scopes := [sc] }
  AuthCodeURL := fun _ => "https://accounts.example/auth"
  Scan := .ok "code"
  Exchange := fun _ _ => .ok sampleToken
  New := fun c => .ok { client := c }
  Create := fun _ sp => .ok { sp with SpreadsheetId := "id1", SpreadsheetUrl := "url1" }
  BatchUpdate := fun _ id _ => .ok { SpreadsheetId := id, TotalUpdatedCells := 4 }

/-- As `sampleWorld`, but the exchange of the authorization code fails. -/
def noExchangeWorld : World :=
  { sampleWorld with Exchange := fun _ _ => .error (.lib "oauth2: cannot fetch token") }

/-- As `sampleWorld`, but the authorization code cannot be read from standard
input. -/
def noScanWorld : World :=
  { sampleWorld with Scan := .error (.lib "unexpected newline") }

/-- As `sampleWorld`, but no file can be created or truncated. -/
def readOnlyWorld : World :=
  { sampleWorld with OpenFile := fun p => some (.os "open" p) }

/-- As `sampleWorld`, but nothing can be written into an opened file. -/
def diskFullWorld : World :=
  { sampleWorld with Encode := fun _ _ => ("", some (.lib "no space left on device")) }

/-- A first run: credentials.json and file.csv exist, token.json does not. -/
def firstRun (content : String) : State where
  files := fun p =>
    if p = "credentials.json" then some "secret"
    else if p = csvFile then some content
    else none
  trace := []

/-- A later run: token.json holds the token written by `sampleWorld`. -/
def laterRun (content : String) : State where
  files := fun p =>
    if p = "credentials.json" then some "secret"
    else if p = csvFile then some content
    else if p = tokFile then some "token:at"
    else none
  trace := []

/-! ## The steps of the driver -/

/-- The steps of the driver, in the order of the spec. -/
inductive Step where
  | LoadCredentials
  | Authenticate
  | CreateSpreadsheet
  | LoadCSV
  | UploadData
  | Report
  deriving DecidableEq, Repr

/-- The six steps in order. -/
def allSteps : List Step :=
  [.LoadCredentials, .Authenticate, .CreateSpreadsheet, .LoadCSV, .UploadData, .Report]

/-- The step a call belongs to; `log.Fatalf` belongs to none. -/
def stepOf : Event → Option Step
  | .ReadFile _ _ => some .LoadCredentials
  | .ConfigFromJSON _ _ => some .LoadCredentials
  | .Open p _ =>
    if p = tokFile then some .Authenticate
    else if p = csvFile then some .LoadCSV
    else none
  | .Decode _ _ => some .Authenticate
  | .Call _ => some .Authenticate
  | .Printf _ _ => some .Authenticate
  | .Scan _ => some .Authenticate
  | .Exchange _ _ => some .Authenticate
  | .OpenFile _ _ => some .Authenticate
  | .Encode _ _ _ => some .Authenticate
  | .Client _ => some .Authenticate
  | .New _ => some .CreateSpreadsheet
  | .Create _ _ => some .CreateSpreadsheet
  | .LogPrintf _ _ => some .CreateSpreadsheet
  | .ReadAll _ _ => some .LoadCSV
  | .BatchUpdate _ _ _ => some .UploadData
  | .PrintResp _ => some .Report
  | .Fatalf _ _ => none

/-- Drop every element equal to the one before it. -/
def collapse : List Step → List Step
  | [] => []
  | [a] => [a]
  | a :: b :: rest => if a = b then collapse (b :: rest) else a :: collapse (b :: rest)

/-- The sequence of steps a trace goes through. -/
def steps (tr : List Event) : List Step :=
  collapse (tr.filterMap stepOf)

/-- A batch update. -/
def isBatchUpdate : Event → Bool
  | .BatchUpdate _ _ _ => true
  | _ => false

/-- An open or a parse of the given file for reading. -/
def isRead (path : String) : Event → Bool
  | .Open p _ => p = path
  | .ReadAll p _ => p = path
  | _ => false

/-- The error a call returned, for the calls that return one. -/
def Event.err? : Event → Option Error
  | .ReadFile _ e => e
  | .ConfigFromJSON _ e => e
  | .Open _ e => e
  | .Decode _ e => e
  | .Scan e => e
  | .Exchange _ e => e
  | .OpenFile _ e => e
  | .Encode _ _ e => e
  | .New e => e
  | .Create _ e => e
  | .ReadAll _ e => e
  | .BatchUpdate _ _ e => e
  | _ => none

/-- A read of token.json: `getClient` answers its failure with the
authorization flow. -/
def isTokenRead : Event → Bool
  | .Open p _ => p = tokFile
  | .Decode p _ => p = tokFile
  | _ => false

/-- A call that failed, other than those `excused`. -/
def mustBeFatal (excused : Event → Bool) (e : Event) : Bool :=
  e.err?.isSome && !excused e

/-- Every failed call, other than those `excused`, is followed by a
`log.Fatalf` and by nothing else. -/
def failuresFatal (excused : Event → Bool) : List Event → Bool
  | [] => true
  | e :: rest =>
    (!mustBeFatal excused e ||
      (match rest with
       | [.Fatalf _ _] => true
       | _ => false)) && failuresFatal excused rest

/-- The failed calls that do not end the run: the reads of token.json, and
the write of the token, whose error `saveToken` drops. -/
def notFatal (e : Event) : Bool :=
  isTokenRead e || isEncode tokFile e

/-- A `log.Fatalf`. -/
def isFatalf : Event → Bool
  | .Fatalf _ _ => true
  | _ => false
/-! ## The monad, unfolded -/

@[simp] theorem Proc.pure_apply {α : Type} (a : α) (s : State) :
    (pure a : Proc α) s = Outcome.ret a s := rfl

@[simp] theorem Proc.bind_apply {α β : Type} (p : Proc α) (f : α → Proc β) (s : State) :
    (p >>= f) s =
      match p s with
      | .ret a s1 => f a s1
      | .exit c s1 => .exit c s1 := rfl

@[simp] theorem emit_apply (e : Event) (s : State) :
    emit e s = Outcome.ret () { s with trace := s.trace ++ [e] } := rfl

@[simp] theorem getFiles_apply (s : State) : getFiles s = Outcome.ret s.files s := rfl

@[simp] theorem setFile_apply (path c : String) (s : State) :
    setFile path c s =
      Outcome.ret () { s with files := fun p => if p = path then some c else s.files p } := rfl

@[simp] theorem fatalf_apply {α : Type} (format : String) (err : Error) (s : State) :
    (fatalf format err : Proc α) s =
      Outcome.exit 1 { s with trace := s.trace ++ [.Fatalf format err] } := rfl

/-! ## The csv reader -/

namespace csv

/-! ### The loops of the reader end within their fuel -/

theorem readSlice_length (r l rest : List Char) (eof : Bool)
    (h : readSlice r = (l, rest, eof)) : l.length + rest.length = r.length := by
  induction r generalizing l rest eof with
  | nil =>
    simp only [readSlice, Prod.mk.injEq] at h
    obtain ⟨h1, h2, _⟩ := h
    subst h1 h2
    rfl
  | cons c cs ih =>
    simp only [readSlice] at h
    split at h
    · simp only [Prod.mk.injEq] at h
      obtain ⟨h1, h2, _⟩ := h
      subst h1 h2
      simp only [List.length_cons, List.length_nil]
      omega
    · rcases hcs : readSlice cs with ⟨l1, rest1, eof1⟩
      rw [hcs] at h
      simp only [Prod.mk.injEq] at h
      obtain ⟨h1, h2, _⟩ := h
      subst h1 h2
      have := ih l1 rest1 eof1 hcs
      simp only [List.length_cons]
      omega

theorem readSlice_ne_nil (c : Char) (cs l rest : List Char) (eof : Bool)
    (h : readSlice (c :: cs) = (l, rest, eof)) : l ≠ [] := by
  simp only [readSlice] at h
  split at h
  · simp only [Prod.mk.injEq] at h
    rw [← h.1]
    simp
  · rcases hcs : readSlice cs with ⟨l1, rest1, eof1⟩
    rw [hcs] at h
    simp only [Prod.mk.injEq] at h
    rw [← h.1]
    simp

/-- A line is no longer than what was read for it. -/
theorem readLine_length (r line rest : List Char) (eof : Bool)
    (h : readLine r = (line, eof, rest)) : line.length + rest.length ≤ r.length := by
  rcases hrs : readSlice r with ⟨l0, rest0, eof0⟩
  have hlen := readSlice_length r l0 rest0 eof0 hrs
  simp only [readLine, hrs, Prod.mk.injEq] at h
  obtain ⟨h1, _, h3⟩ := h
  subst h3
  have hdrop : (l0.dropLast).length ≤ l0.length := by simp
  rw [← h1]
  split
  · split
    · simp only [List.length_append, List.length_take, List.length_singleton]
      omega
    · omega
  · split
    · simp only [List.length_append, List.length_take, List.length_singleton]
      omega
    · omega

/-- End of file is reported only when nothing is left to read. -/
theorem readLine_eof (r line rest : List Char)
    (h : readLine r = (line, true, rest)) : r = [] := by
  cases r with
  | nil => rfl
  | cons c cs =>
    rcases hrs : readSlice (c :: cs) with ⟨l0, rest0, eof0⟩
    have hne := readSlice_ne_nil c cs l0 rest0 eof0 hrs
    have hpos : 0 < l0.length := List.length_pos.mpr hne
    simp [readLine, hrs, hpos] at h

/-- Reading a line from input that is not empty consumes some of it. -/
theorem readLine_rest (r line rest : List Char) (eof : Bool)
    (h : readLine r = (line, eof, rest)) (hr : r ≠ []) : rest.length < r.length := by
  cases r with
  | nil => exact absurd rfl hr
  | cons c cs =>
    rcases hrs : readSlice (c :: cs) with ⟨l0, rest0, eof0⟩
    have hne := readSlice_ne_nil c cs l0 rest0 eof0 hrs
    have hpos : 0 < l0.length := List.length_pos.mpr hne
    have hlen := readSlice_length (c :: cs) l0 rest0 eof0 hrs
    simp only [readLine, hrs, Prod.mk.injEq] at h
    obtain ⟨_, _, h3⟩ := h
    subst h3
    omega

theorem index_lt (c : Char) (l : List Char) (i : Nat) (h : index c l = some i) :
    i < l.length := by
  induction l generalizing i with
  | nil => simp [index] at h
  | cons x xs ih =>
    simp only [index] at h
    split at h
    · simp only [Option.some.injEq] at h
      subst h
      simp
    · cases hx : index c xs with
      | none => simp [hx] at h
      | some j =>
        simp only [hx, Option.map_some', Option.some.injEq] at h
        subst h
        have := ih j hx
        simp only [List.length_cons]
        omega

/-- The first loop of `readRecord` ends within `fuel` rounds when `fuel`
exceeds the number of unread characters; a line that is not end of file uses
up input. -/
theorem skipEmpty_some (fuel : Nat) (r : List Char) (hfuel : r.length < fuel) :
    ∃ line eof r1, skipEmpty fuel r = some (line, eof, r1) ∧
      line.length + r1.length ≤ r.length ∧ (eof = false → r1.length < r.length) := by
  induction fuel generalizing r with
  | zero => omega
  | succ fuel ih =>
    rcases hl : readLine r with ⟨line, eof, r1⟩
    have hlen := readLine_length r line r1 eof hl
    have hprog : eof = false → r1.length < r.length := by
      intro he
      apply readLine_rest r line r1 eof hl
      intro hr
      subst hr
      have : readLine [] = ([], true, []) := rfl
      rw [this] at hl
      simp only [Prod.mk.injEq] at hl
      rw [← hl.2.1] at he
      cases he
    simp only [skipEmpty, hl]
    split
    · rename_i hcond
      have hlt := hprog hcond.1
      obtain ⟨line2, eof2, r2, h2, hlen2, hprog2⟩ := ih r1 (by omega)
      refine ⟨line2, eof2, r2, h2, by omega, fun he => ?_⟩
      have := hprog2 he
      omega
    · exact ⟨line, eof, r1, rfl, hlen, hprog⟩

/-- The `parseField` loop ends within `fuel` rounds when `fuel` exceeds the
number of characters left in the line and in the input; it leaves no more
input than it found. -/
theorem parseField_some (fuel : Nat) (r line : List Char) (q : Option (List Char))
    (fields : List (List Char)) (hfuel : line.length + r.length < fuel) :
    ∃ fs err r1, parseField fuel r line q fields = some (fs, err, r1) ∧
      r1.length ≤ r.length := by
  induction fuel generalizing r line q fields with
  | zero => omega
  | succ fuel ih =>
    cases q with
    | none =>
      simp only [parseField]
      split
      · rename_i line1
        simp only [List.length_cons] at hfuel
        exact ih r line1 (some []) fields (by omega)
      · split
        · exact ⟨_, _, _, rfl, le_refl _⟩
        · split
          · rename_i i hi
            have hi2 := index_lt ',' line i hi
            have hdrop : (line.drop (i + 1)).length < line.length := by
              simp only [List.length_drop]
              omega
            exact ih r (line.drop (i + 1)) none _ (by omega)
          · exact ⟨_, _, _, rfl, le_refl _⟩
    | some buf =>
      simp only [parseField]
      split
      · rename_i i hi
        have hi2 := index_lt '"' line i hi
        have hdrop : (line.drop (i + 1)).length < line.length := by
          simp only [List.length_drop]
          omega
        split
        · rename_i line2 heq
          rw [heq] at hdrop
          simp only [List.length_cons] at hdrop
          exact ih r line2 _ fields (by omega)
        · rename_i line2 heq
          rw [heq] at hdrop
          simp only [List.length_cons] at hdrop
          exact ih r line2 none _ (by omega)
        · split
          · exact ⟨_, _, _, rfl, le_refl _⟩
          · exact ⟨_, _, _, rfl, le_refl _⟩
      · split
        · rename_i hpos
          rcases hl : readLine r with ⟨line1, eof1, r1⟩
          have hlen := readLine_length r line1 r1 eof1 hl
          simp only []
          obtain ⟨fs, err, r2, h2, hle⟩ := ih r1 line1 (some (buf ++ line)) fields (by omega)
          exact ⟨fs, err, r2, h2, by omega⟩
        · exact ⟨_, _, _, rfl, le_refl _⟩

/-- Reading a record ends within `fuel` rounds when `fuel` exceeds the number
of unread characters, and a record that is not end of file uses up input. -/
theorem readRecordFuel_some (fuel : Nat) (rd : Reader) (hfuel : rd.r.length < fuel) :
    ∃ dst err rd1, readRecordFuel fuel rd = some (dst, err, rd1) ∧
      (err ≠ some .EOF → rd1.r.length < rd.r.length) := by
  obtain ⟨line, eof, r1, hs, hlen, hprog⟩ := skipEmpty_some fuel rd.r hfuel
  simp only [readRecordFuel, hs]
  cases eof with
  | true => exact ⟨_, _, _, rfl, fun h => absurd rfl h⟩
  | false =>
    have hlt := hprog rfl
    obtain ⟨fs, err, r2, hp, hle⟩ := parseField_some fuel r1 line none [] (by omega)
    simp only [Bool.false_eq_true, if_false, hp]
    split
    · split
      · exact ⟨_, _, _, rfl, fun _ => by simp only []; omega⟩
      · exact ⟨_, _, _, rfl, fun _ => by simp only []; omega⟩
    · split
      · exact ⟨_, _, _, rfl, fun _ => by simp only []; omega⟩
      · exact ⟨_, _, _, rfl, fun _ => by simp only []; omega⟩

/-- The loop of `ReadAll` ends within `fuel` rounds when `fuel` exceeds the
number of unread characters. -/
theorem readAllLoop_some (fuel : Nat) (rd : Reader) (acc : List (List String))
    (hfuel : rd.r.length < fuel) : ∃ res, readAllLoop fuel rd acc = some res := by
  induction fuel generalizing rd acc with
  | zero => omega
  | succ fuel ih =>
    obtain ⟨dst, err, rd1, hrec, hprog⟩ := readRecordFuel_some (rd.r.length + 2) rd (by omega)
    simp only [readAllLoop, hrec]
    cases err with
    | some e =>
      cases e with
      | EOF => exact ⟨_, rfl⟩
      | parse e => exact ⟨_, rfl⟩
    | none =>
      have hlt := hprog (by simp)
      exact ih rd1 _ (by omega)

/-- The rounds `ReadAll` gives its loops are enough for every input: its
result is the result of the loop, never the stand-in `ErrFuel`. -/
theorem ReadAll_total (rd : Reader) :
    ∃ res, readAllLoop (rd.r.length + 2) rd [] = some res ∧ rd.ReadAll = res := by
  obtain ⟨res, h⟩ := readAllLoop_some (rd.r.length + 2) rd [] (by omega)
  exact ⟨res, h, by simp only [Reader.ReadAll, h]⟩

theorem parseField_err (fuel : Nat) (r line : List Char) (q : Option (List Char))
    (fields fs : List (List Char)) (e : ErrKind) (r1 : List Char)
    (h : parseField fuel r line q fields = some (fs, some e, r1)) : e ≠ .ErrFuel := by
  induction fuel generalizing r line q fields with
  | zero => simp [parseField] at h
  | succ fuel ih =>
    cases q with
    | none =>
      simp only [parseField] at h
      split at h
      · exact ih _ _ _ _ h
      · split at h
        · simp only [Option.some.injEq, Prod.mk.injEq] at h
          rw [← h.2.1]
          decide
        · split at h
          · exact ih _ _ _ _ h
          · simp at h
    | some buf =>
      simp only [parseField] at h
      split at h
      · split at h
        · exact ih _ _ _ _ h
        · exact ih _ _ _ _ h
        · split at h
          · simp at h
          · simp only [Option.some.injEq, Prod.mk.injEq] at h
            rw [← h.2.1]
            decide
      · split at h
        · exact ih _ _ _ _ h
        · simp only [Option.some.injEq, Prod.mk.injEq] at h
          rw [← h.2.1]
          decide

theorem readRecordFuel_err (fuel : Nat) (rd rd1 : Reader) (dst : List String) (e : ErrKind)
    (h : readRecordFuel fuel rd = some (dst, some (.parse e), rd1)) : e ≠ .ErrFuel := by
  simp only [readRecordFuel] at h
  cases hs : skipEmpty fuel rd.r with
  | none => simp [hs] at h
  | some res =>
    obtain ⟨line, eof, r1⟩ := res
    simp only [hs] at h
    cases eof with
    | true => simp at h
    | false =>
      simp only [Bool.false_eq_true, if_false] at h
      cases hp : parseField fuel r1 line none [] with
      | none => simp [hp] at h
      | some res2 =>
        obtain ⟨fields, err, r2⟩ := res2
        simp only [hp] at h
        have herr : ∀ e1, err = some e1 → e1 ≠ .ErrFuel :=
          fun e1 he => parseField_err fuel r1 line none [] fields e1 r2 (he ▸ hp)
        cases err with
        | none =>
          split at h
          · split at h
            · simp only [Option.some.injEq, Prod.mk.injEq, RecErr.parse.injEq] at h
              rw [← h.2.1]
              decide
            · simp at h
          · split at h <;> simp at h
        | some e1 =>
          have he1 := herr e1 rfl
          split at h
          · split at h
            · rename_i hc
              simp at hc
            · simp only [Option.map_some', Option.some.injEq, Prod.mk.injEq,
                RecErr.parse.injEq] at h
              rw [← h.2.1]
              exact he1
          · split at h
            · simp only [Option.map_some', Option.some.injEq, Prod.mk.injEq,
                RecErr.parse.injEq] at h
              rw [← h.2.1]
              exact he1
            · simp only [Option.map_some', Option.some.injEq, Prod.mk.injEq,
                RecErr.parse.injEq] at h
              rw [← h.2.1]
              exact he1

theorem readAllLoop_err (fuel : Nat) (rd : Reader) (acc R : List (List String)) (e : ErrKind)
    (h : readAllLoop fuel rd acc = some (R, some e)) : e ≠ .ErrFuel := by
  induction fuel generalizing rd acc with
  | zero => simp [readAllLoop] at h
  | succ fuel ih =>
    simp only [readAllLoop] at h
    cases hrec : readRecordFuel (rd.r.length + 2) rd with
    | none => simp [hrec] at h
    | some res =>
      obtain ⟨record, err, rd1⟩ := res
      simp only [hrec] at h
      cases err with
      | some e1 =>
        cases e1 with
        | EOF => simp at h
        | parse e2 =>
          simp only [Option.some.injEq, Prod.mk.injEq] at h
          rw [← h.2]
          exact readRecordFuel_err _ rd rd1 record e2 hrec
      | none => exact ih rd1 _ h

/-- The error of `ReadAll` is never the stand-in `ErrFuel`. -/
theorem ReadAll_ne_ErrFuel (rd : Reader) : rd.ReadAll.2 ≠ some .ErrFuel := by
  obtain ⟨res, hloop, hres⟩ := ReadAll_total rd
  rw [hres]
  obtain ⟨R, err⟩ := res
  cases err with
  | none => simp
  | some e =>
    have := readAllLoop_err _ rd [] R e hloop
    simpa using this

/-- A record parsed without error has at least one field. -/
theorem parseField_ne_nil (fuel : Nat) (r line : List Char) (q : Option (List Char))
    (fields fs : List (List Char)) (r1 : List Char)
    (h : parseField fuel r line q fields = some (fs, none, r1)) : fs ≠ [] := by
  induction fuel generalizing r line q fields with
  | zero => simp [parseField] at h
  | succ fuel ih =>
    cases q with
    | none =>
      simp only [parseField] at h
      split at h
      · exact ih _ _ _ _ h
      · split at h
        · simp at h
        · split at h
          · exact ih _ _ _ _ h
          · simp only [Option.some.injEq, Prod.mk.injEq] at h
            rw [← h.1]
            simp
    | some buf =>
      simp only [parseField] at h
      split at h
      · split at h
        · exact ih _ _ _ _ h
        · exact ih _ _ _ _ h
        · split at h
          · simp only [Option.some.injEq, Prod.mk.injEq] at h
            rw [← h.1]
            simp
          · simp at h
      · split at h
        · exact ih _ _ _ _ h
        · simp at h

/-- End of file is reported whatever `FieldsPerRecord` is. -/
theorem readRecordFuel_eof (fuel : Nat) (r : List Char) (dst : List String) (rd1 : Reader)
    (h : readRecordFuel fuel { FieldsPerRecord := -1, r := r } = some (dst, some .EOF, rd1))
    (k : Int) :
    readRecordFuel fuel { FieldsPerRecord := k, r := r } =
      some (dst, some .EOF, { FieldsPerRecord := k, r := rd1.r }) := by
  simp only [readRecordFuel] at h ⊢
  cases hs : skipEmpty fuel r with
  | none => simp [hs] at h
  | some res =>
    obtain ⟨line, eof, r1⟩ := res
    simp only [hs] at h ⊢
    cases eof with
    | true =>
      simp at h ⊢
      obtain ⟨h1, h2⟩ := h
      simp [h1, ← h2]
    | false =>
      simp only [Bool.false_eq_true, if_false] at h ⊢
      cases hp : parseField fuel r1 line none [] with
      | none => simp [hp] at h
      | some res2 =>
        obtain ⟨fields, err, r2⟩ := res2
        simp [hp] at h

/-- A record read without any check of its field count is read with the check
as well: it is returned as it is when the count is the required one or none
is required yet, and with `ErrFieldCount` otherwise. -/
theorem readRecordFuel_ok (fuel : Nat) (r : List Char) (dst : List String) (rd1 : Reader)
    (h : readRecordFuel fuel { FieldsPerRecord := -1, r := r } = some (dst, none, rd1)) :
    rd1.FieldsPerRecord = -1 ∧ dst ≠ [] ∧
    readRecordFuel fuel { FieldsPerRecord := 0, r := r } =
      some (dst, none, { FieldsPerRecord := dst.length, r := rd1.r }) ∧
    ∀ k : Int, 0 < k →
      readRecordFuel fuel { FieldsPerRecord := k, r := r } =
        some (dst,
          if (dst.length : Int) ≠ k then some (.parse .ErrFieldCount) else none,
          { FieldsPerRecord := k, r := rd1.r }) := by
  simp only [readRecordFuel] at h ⊢
  cases hs : skipEmpty fuel r with
  | none => simp [hs] at h
  | some res =>
    obtain ⟨line, eof, r1⟩ := res
    simp only [hs] at h ⊢
    cases eof with
    | true => simp at h
    | false =>
      simp only [Bool.false_eq_true, if_false] at h ⊢
      cases hp : parseField fuel r1 line none [] with
      | none => simp [hp] at h
      | some res2 =>
        obtain ⟨fields, err, r2⟩ := res2
        simp [hp] at h
        obtain ⟨h1, h2, h3⟩ := h
        subst h2
        have hne := parseField_ne_nil fuel r1 line none [] fields r2 hp
        subst h1 h3
        refine ⟨rfl, by simpa using hne, by simp, ?_⟩
        intro k hk
        simp [hk]
        split <;> simp_all

theorem Reader.eta (rd : Reader) :
    rd = { FieldsPerRecord := rd.FieldsPerRecord, r := rd.r } := rfl

/-- The loop of `ReadAll` with a required field count `k`, against the loop
without any check: it returns the same records when they all have `k` fields
and `ErrFieldCount` otherwise. -/
theorem readAllLoop_checked (fuel : Nat) (r : List Char) (accL R : List (List String))
    (h : readAllLoop fuel { FieldsPerRecord := -1, r := r } accL = some (R, none)) :
    ∃ R1 : List (List String), R = accL ++ R1 ∧
      ∀ (k : Int) (accS : List (List String)), 0 < k →
        readAllLoop fuel { FieldsPerRecord := k, r := r } accS =
          some (if ∀ x ∈ R1, (x.length : Int) = k then (accS ++ R1, none)
            else ([], some .ErrFieldCount)) := by
  induction fuel generalizing r accL with
  | zero => simp [readAllLoop] at h
  | succ fuel ih =>
    simp only [readAllLoop] at h
    cases hrec : readRecordFuel (r.length + 2) { FieldsPerRecord := -1, r := r } with
    | none => simp [hrec] at h
    | some res =>
      obtain ⟨record, err, rd1⟩ := res
      simp only [hrec] at h
      cases err with
      | some e =>
        cases e with
        | EOF =>
          simp only [Option.some.injEq, Prod.mk.injEq, and_true] at h
          refine ⟨[], by simp [h], ?_⟩
          intro k accS _
          simp [readAllLoop, readRecordFuel_eof _ r record rd1 hrec k]
        | parse e => simp at h
      | none =>
        simp only at h
        obtain ⟨hfpr, _, _, hk⟩ := readRecordFuel_ok _ r record rd1 hrec
        have hrd1 : rd1 = { FieldsPerRecord := -1, r := rd1.r } := by
          rw [← hfpr]
        rw [hrd1] at h
        obtain ⟨R2, hR2, hloop⟩ := ih rd1.r (accL ++ [record]) h
        refine ⟨record :: R2, by simp [hR2], ?_⟩
        intro k accS hkpos
        simp only [readAllLoop, hk k hkpos]
        by_cases hlen : (record.length : Int) = k
        · simp only [hlen, ne_eq, not_true_eq_false, if_false]
          rw [hloop k (accS ++ [record]) hkpos]
          simp [hlen]
        · simp [hlen]

/-- The loop of `ReadAll` of a reader made by `NewReader`, against the loop
without any check: it returns the same records when they all have as many
fields as the first and `ErrFieldCount` otherwise. -/
theorem readAllLoop_first (fuel : Nat) (r : List Char) (R : List (List String))
    (h : readAllLoop fuel { FieldsPerRecord := -1, r := r } [] = some (R, none)) :
    readAllLoop fuel { FieldsPerRecord := 0, r := r } [] =
      some (if ∀ x ∈ R, x.length = (R.headD []).length then (R, none)
        else ([], some .ErrFieldCount)) := by
  cases fuel with
  | zero => simp [readAllLoop] at h
  | succ fuel =>
    simp only [readAllLoop] at h
    cases hrec : readRecordFuel (r.length + 2) { FieldsPerRecord := -1, r := r } with
    | none => simp [hrec] at h
    | some res =>
      obtain ⟨record, err, rd1⟩ := res
      simp only [hrec] at h
      cases err with
      | some e =>
        cases e with
        | EOF =>
          simp only [Option.some.injEq, Prod.mk.injEq, and_true] at h
          simp [readAllLoop, readRecordFuel_eof _ r record rd1 hrec 0, ← h]
        | parse e => simp at h
      | none =>
        simp only at h
        obtain ⟨hfpr, hne, h0, _⟩ := readRecordFuel_ok _ r record rd1 hrec
        have hrd1 : rd1 = { FieldsPerRecord := -1, r := rd1.r } := by
          rw [← hfpr]
        rw [hrd1] at h
        obtain ⟨R2, hR2, hloop⟩ := readAllLoop_checked fuel rd1.r ([] ++ [record]) R h
        have hpos : (0 : Int) < (record.length : Int) := by
          have : 0 < record.length := List.length_pos.mpr hne
          exact_mod_cast this
        simp only [readAllLoop, h0]
        rw [hloop record.length ([] ++ [record]) hpos, hR2]
        simp

/-- Input that parses without error into records of differing field counts
when no count is required is rejected with `ErrFieldCount` by the reader
`NewReader` makes. -/
theorem ReadAll_ragged (input : List Char) (R : List (List String))
    (h : ({ NewReader input with FieldsPerRecord := -1 }).ReadAll = (R, none))
    (hragged : ∃ r1 ∈ R, ∃ r2 ∈ R, r1.length ≠ r2.length) :
    (NewReader input).ReadAll = ([], some .ErrFieldCount) := by
  simp only [Reader.ReadAll, NewReader] at h ⊢
  cases hl : readAllLoop (input.length + 2) { FieldsPerRecord := -1, r := input } [] with
  | none => simp [hl] at h
  | some res =>
    simp only [hl] at h
    subst h
    rw [readAllLoop_first _ input R hl]
    have hnot : ¬ ∀ x ∈ R, x.length = (R.headD []).length := by
      intro hall
      obtain ⟨r1, h1, r2, h2, hne⟩ := hragged
      exact hne ((hall r1 h1).trans (hall r2 h2).symm)
    rw [if_neg hnot]

/-- A record the reader returns without error has the required number of
fields, which stays required; when none was required yet, the record is not
empty and its number of fields is required from then on. -/
theorem readRecordFuel_count (fuel : Nat) (rd rd1 : Reader) (dst : List String)
    (h : readRecordFuel fuel rd = some (dst, none, rd1)) :
    (0 < rd.FieldsPerRecord →
      (dst.length : Int) = rd.FieldsPerRecord ∧ rd1.FieldsPerRecord = rd.FieldsPerRecord) ∧
    (rd.FieldsPerRecord = 0 → dst ≠ [] ∧ rd1.FieldsPerRecord = dst.length) := by
  simp only [readRecordFuel] at h
  cases hs : skipEmpty fuel rd.r with
  | none => simp [hs] at h
  | some res =>
    obtain ⟨line, eof, r1⟩ := res
    simp only [hs] at h
    cases eof with
    | true => simp at h
    | false =>
      simp only [Bool.false_eq_true, if_false] at h
      cases hp : parseField fuel r1 line none [] with
      | none => simp [hp] at h
      | some res2 =>
        obtain ⟨fields, err, r2⟩ := res2
        simp only [hp] at h
        constructor
        · intro hk
          simp only [hk, if_true] at h
          split at h
          · simp at h
          · rename_i hcond
            simp only [Option.some.injEq, Prod.mk.injEq] at h
            obtain ⟨h1, h2, h3⟩ := h
            cases err with
            | some e => simp at h2
            | none =>
              simp only [ne_eq, and_true, not_not] at hcond
              rw [← h1, ← h3]
              exact ⟨hcond, rfl⟩
        · intro hk
          simp only [hk, lt_self_iff_false, if_false, if_true] at h
          simp only [Option.some.injEq, Prod.mk.injEq] at h
          obtain ⟨h1, h2, h3⟩ := h
          cases err with
          | some e => simp at h2
          | none =>
            have hne := parseField_ne_nil fuel r1 line none [] fields r2 hp
            rw [← h1, ← h3]
            exact ⟨by simpa using hne, rfl⟩

/-- Once a field count is required, all the records `ReadAll` returns have it. -/
theorem readAllLoop_count (fuel : Nat) (rd : Reader) (acc R : List (List String))
    (hk : 0 < rd.FieldsPerRecord)
    (hacc : ∀ x ∈ acc, (x.length : Int) = rd.FieldsPerRecord)
    (h : readAllLoop fuel rd acc = some (R, none)) :
    ∀ x ∈ R, (x.length : Int) = rd.FieldsPerRecord := by
  induction fuel generalizing rd acc with
  | zero => simp [readAllLoop] at h
  | succ fuel ih =>
    simp only [readAllLoop] at h
    cases hrec : readRecordFuel (rd.r.length + 2) rd with
    | none => simp [hrec] at h
    | some res =>
      obtain ⟨record, err, rd1⟩ := res
      simp only [hrec] at h
      cases err with
      | some e =>
        cases e with
        | EOF =>
          simp only [Option.some.injEq, Prod.mk.injEq, and_true] at h
          rw [← h]
          exact hacc
        | parse e => simp at h
      | none =>
        simp only at h
        obtain ⟨hlen, hfpr⟩ := (readRecordFuel_count _ rd rd1 record hrec).1 hk
        have := ih rd1 (acc ++ [record]) (by rw [hfpr]; exact hk)
          (by
            intro x hx
            rw [hfpr]
            rcases List.mem_append.mp hx with hx | hx
            · exact hacc x hx
            · simp only [List.mem_singleton] at hx
              rw [hx]; exact hlen) h
        simpa [hfpr] using this

/-- The records `ReadAll` returns start with those it had. -/
theorem readAllLoop_prefix (fuel : Nat) (rd : Reader) (acc R : List (List String))
    (h : readAllLoop fuel rd acc = some (R, none)) : ∃ R1, R = acc ++ R1 := by
  induction fuel generalizing rd acc with
  | zero => simp [readAllLoop] at h
  | succ fuel ih =>
    simp only [readAllLoop] at h
    cases hrec : readRecordFuel (rd.r.length + 2) rd with
    | none => simp [hrec] at h
    | some res =>
      obtain ⟨record, err, rd1⟩ := res
      simp only [hrec] at h
      cases err with
      | some e =>
        cases e with
        | EOF =>
          simp only [Option.some.injEq, Prod.mk.injEq, and_true] at h
          exact ⟨[], by simp [h]⟩
        | parse e => simp at h
      | none =>
        simp only at h
        obtain ⟨R1, hR1⟩ := ih rd1 (acc ++ [record]) h
        exact ⟨record :: R1, by simp [hR1]⟩

/-- While no field count is required, the first record sets it. -/
theorem readAllLoop_zero (fuel : Nat) (rd : Reader) (R : List (List String))
    (hk : rd.FieldsPerRecord = 0)
    (h : readAllLoop fuel rd [] = some (R, none)) :
    ∀ x ∈ R, x.length = (R.headD []).length := by
  cases fuel with
  | zero => simp [readAllLoop] at h
  | succ fuel =>
    simp only [readAllLoop] at h
    cases hrec : readRecordFuel (rd.r.length + 2) rd with
    | none => simp [hrec] at h
    | some res =>
      obtain ⟨record, err, rd1⟩ := res
      simp only [hrec] at h
      cases err with
      | some e =>
        cases e with
        | EOF =>
          simp only [Option.some.injEq, Prod.mk.injEq, and_true] at h
          rw [← h]
          simp
        | parse e => simp at h
      | none =>
        simp only at h
        obtain ⟨hne, hfpr⟩ := (readRecordFuel_count _ rd rd1 record hrec).2 hk
        have hpos : (0 : Int) < rd1.FieldsPerRecord := by
          rw [hfpr]
          have : 0 < record.length := List.length_pos.mpr hne
          exact_mod_cast this
        have hall := readAllLoop_count _ rd1 ([] ++ [record]) R hpos
          (by simp [hfpr]) h
        obtain ⟨R1, hR1⟩ := readAllLoop_prefix _ rd1 ([] ++ [record]) R h
        intro x hx
        have := hall x hx
        rw [hfpr] at this
        rw [hR1]
        simpa using this

/-- The records the reader made by `NewReader` returns all have as many fields
as the first. -/
theorem ReadAll_rectangular (input : List Char) (R : List (List String))
    (h : (NewReader input).ReadAll = (R, none)) :
    ∀ x ∈ R, x.length = (R.headD []).length := by
  simp only [Reader.ReadAll, NewReader] at h
  cases hl : readAllLoop (input.length + 2) { FieldsPerRecord := 0, r := input } [] with
  | none => simp [hl] at h
  | some res =>
    simp only [hl] at h
    subst h
    exact readAllLoop_zero _ _ R rfl hl

end csv

/-- The reader on some inputs: a quoted field with a line break and a doubled
quote, `\r\n` line ends and empty lines; a bare quote; a quote inside a quoted
field; an unterminated quoted field; records of differing field counts, with
the reader of `NewReader` and with `FieldsPerRecord = -1`. -/
theorem csv.ReadAll_examples :
    (csv.NewReader "\"a\nb\"\"c\",d\r\n\n\nx,\"y\"\r\nz,w".toList).ReadAll =
      ([["a\nb\"c", "d"], ["x", "y"], ["z", "w"]], none) ∧
    (csv.NewReader "a\"b,c\n".toList).ReadAll = ([], some .ErrBareQuote) ∧
    (csv.NewReader "\"a\"b,c\n".toList).ReadAll = ([], some .ErrQuote) ∧
    (csv.NewReader "a,b\n\"abc".toList).ReadAll = ([], some .ErrQuote) ∧
    (csv.NewReader "a,b\n1\n".toList).ReadAll = ([], some .ErrFieldCount) ∧
    ({ csv.NewReader "a,b\n1\n".toList with FieldsPerRecord := -1 }).ReadAll =
      ([["a", "b"], ["1"]], none) ∧
    (csv.NewReader "".toList).ReadAll = ([], none) := by
  decide

/-! ## prepare -/

theorem Slice.toList_append {α : Type} (s : Slice α) (x : α) :
    (s.append x).toList = s.toList ++ [x] := rfl

theorem copyRow_toList (value : List String) (row : Slice Iface) :
    (value.foldl (fun row item => row.append (Iface.str item)) row).toList =
      row.toList ++ value.map Iface.str := by
  induction value generalizing row with
  | nil => simp
  | cons item rest ih => simp [ih, Slice.toList_append]

theorem copyRecords_foldl_toList (record : List (List String)) (all : Slice (Slice Iface)) :
    ((record.foldl
      (fun all value =>
        all.append (value.foldl (fun row item => row.append (Iface.str item)) Slice.nil))
      all).toList).map Slice.toList =
      all.toList.map Slice.toList ++ record.map (fun value => value.map Iface.str) := by
  induction record generalizing all with
  | nil => simp
  | cons value rest ih =>
    rw [List.foldl_cons, ih]
    simp [Slice.toList_append, copyRow_toList]
    simp [Slice.toList]

theorem copyRecords_toList (record : List (List String)) :
    (copyRecords record).toList.map Slice.toList =
      record.map (fun value => value.map Iface.str) := by
  simpa [copyRecords, Slice.toList] using copyRecords_foldl_toList record Slice.nil

theorem prepare_ok (s : State) (filename contents : String) (R : List (List String))
    (hopen : s.files filename = some contents)
    (hparse : (csv.NewReader contents.toList).ReadAll = (R, none)) :
    prepare filename s =
      Outcome.ret (copyRecords R, none)
        { s with trace := s.trace ++ [.Open filename none, .ReadAll filename none] } := by
  have hparse1 : (csv.NewReader contents.data).ReadAll = (R, none) := hparse
  simp [prepare, osOpen, hopen, hparse1]

theorem prepare_err (s : State) (filename contents : String) (recs : List (List String))
    (e : csv.ErrKind) (hopen : s.files filename = some contents)
    (hparse : (csv.NewReader contents.toList).ReadAll = (recs, some e)) :
    prepare filename s =
      Outcome.ret
        (Slice.nil, some (.errorf "reader.RealdAll() failed: %v" none (.csv e)))
        { s with trace := s.trace ++ [.Open filename none, .ReadAll filename (some (.csv e))] } := by
  have hparse1 : (csv.NewReader contents.data).ReadAll = (recs, some e) := hparse
  simp [prepare, osOpen, hopen, hparse1]

theorem prepare_noFile (s : State) (filename : String) (hopen : s.files filename = none) :
    prepare filename s =
      Outcome.ret
        (Slice.nil,
          some (.errorf "os.Open(%q) failed: %v" (some filename) (.os "open" filename)))
        { s with trace := s.trace ++ [.Open filename (some (.os "open" filename))] } := by
  simp [prepare, osOpen, hopen]

/-- C1: when the file opens and the reader parses its content into the record
list `R` without error, `prepare` returns a nil error and a grid `G` with one
row per record, in order, row `i` having as many cells as record `i` has
fields, and cell `(i, j)` being the string field `(i, j)` of `R` unchanged. -/
theorem prepare_grid_equals_records (s : State) (filename contents : String)
    (R : List (List String))
    (hopen : s.files filename = some contents)
    (hparse : (csv.NewReader contents.toList).ReadAll = (R, none)) :
    ∃ G : Slice (Slice Iface),
      (prepare filename s).value? = some (G, none) ∧
      G.len = R.length ∧
      G.toList.map Slice.toList = R.map (fun value => value.map Iface.str) ∧
      ∀ (i : Nat) (hi : i < R.length), ∃ row : Slice Iface,
        G.toList[i]? = some row ∧ row.len = R[i].length ∧
        ∀ (j : Nat) (hj : j < R[i].length), row.toList[j]? = some (Iface.str R[i][j]) := by
  refine ⟨copyRecords R, ?_, ?_, copyRecords_toList R, ?_⟩
  · rw [prepare_ok s filename contents R hopen hparse]; rfl
  · have h := congrArg List.length (copyRecords_toList R)
    simpa [Slice.len] using h
  · intro i hi
    have hmap := copyRecords_toList R
    have hlen : (copyRecords R).toList.length = R.length := by
      simpa using congrArg List.length hmap
    have hi2 : i < (copyRecords R).toList.length := by omega
    refine ⟨(copyRecords R).toList[i], List.getElem?_eq_getElem hi2, ?_, ?_⟩
    · have h := congrArg (fun l => l[i]?) hmap
      simp [List.getElem?_eq_getElem hi, List.getElem?_eq_getElem hi2] at h
      simp [Slice.len, h]
    · intro j hj
      have h := congrArg (fun l => l[i]?) hmap
      simp [List.getElem?_eq_getElem hi, List.getElem?_eq_getElem hi2] at h
      simp [h, List.getElem?_eq_getElem hj]

theorem prepare_grid_equals_records_witness :
    ∃ G : Slice (Slice Iface),
      (prepare csvFile (csvOnly "a,b\n1,2\n")).value? = some (G, none) ∧
      G.len = [["a", "b"], ["1", "2"]].length ∧
      G.toList.map Slice.toList =
        [["a", "b"], ["1", "2"]].map (fun value => value.map Iface.str) ∧
      ∀ (i : Nat) (hi : i < [["a", "b"], ["1", "2"]].length), ∃ row : Slice Iface,
        G.toList[i]? = some row ∧ row.len = [["a", "b"], ["1", "2"]][i].length ∧
        ∀ (j : Nat) (hj : j < [["a", "b"], ["1", "2"]][i].length),
          row.toList[j]? = some (Iface.str [["a", "b"], ["1", "2"]][i][j]) :=
  prepare_grid_equals_records (csvOnly "a,b\n1,2\n") csvFile "a,b\n1,2\n"
    [["a", "b"], ["1", "2"]] (by decide) (by decide)

/-- C2: when the file opens and the reader reports an error for its content,
`prepare` returns the nil grid together with a non-nil error, whatever records
the reader had built before the fault. -/
theorem prepare_malformed_no_grid (s : State) (filename contents : String)
    (recs : List (List String)) (e : csv.ErrKind)
    (hopen : s.files filename = some contents)
    (hparse : (csv.NewReader contents.toList).ReadAll = (recs, some e)) :
    ∃ err : Error, (prepare filename s).value? = some (Slice.nil, some err) := by
  refine ⟨.errorf "reader.RealdAll() failed: %v" none (.csv e), ?_⟩
  rw [prepare_err s filename contents recs e hopen hparse]
  rfl

theorem prepare_malformed_no_grid_witness :
    ∃ err : Error,
      (prepare csvFile (csvOnly "a,b\n\"abc")).value? = some (Slice.nil, some err) :=
  prepare_malformed_no_grid (csvOnly "a,b\n\"abc") csvFile "a,b\n\"abc" []
    csv.ErrKind.ErrQuote (by decide) (by decide)

theorem headD_map_length {α : Type} (L : List (List α)) :
    (L.map List.length).headD 0 = (L.headD []).length := by
  cases L <;> rfl

theorem headD_map_len (L : List (Slice Iface)) :
    (L.map Slice.len).headD 0 = (L.headD Slice.nil).len := by
  cases L <;> rfl

theorem copyRecords_lens (record : List (List String)) :
    (copyRecords record).toList.map Slice.len = record.map List.length := by
  have h := congrArg (List.map List.length) (copyRecords_toList record)
  simpa [List.map_map, Function.comp_def, Slice.len] using h

/-- C9, as amended: `prepare` has no rectangularity check of its own, but the
reader it makes with `csv.NewReader` requires every record to have as many
fields as the first. When the file opens and its content, parsed without any
check of the field counts, gives records of differing field counts, `prepare`
returns the nil grid and the error of the reader ("wrong number of fields");
and whenever `prepare` returns a nil error, all rows of the grid have as many
cells as the first. -/
theorem prepare_rejects_ragged_records (s : State) (filename contents : String)
    (hopen : s.files filename = some contents) :
    (∀ R : List (List String),
      ({ csv.NewReader contents.toList with FieldsPerRecord := -1 }).ReadAll = (R, none) →
      (∃ r1 ∈ R, ∃ r2 ∈ R, r1.length ≠ r2.length) →
      (prepare filename s).value? =
        some (Slice.nil,
          some (.errorf "reader.RealdAll() failed: %v" none (.csv .ErrFieldCount)))) ∧
    (∀ G : Slice (Slice Iface), (prepare filename s).value? = some (G, none) →
      ∀ row ∈ G.toList, row.len = (G.toList.headD Slice.nil).len) := by
  constructor
  · intro R hvalid hragged
    have hstrict := csv.ReadAll_ragged contents.toList R hvalid hragged
    rw [prepare_err s filename contents [] .ErrFieldCount hopen hstrict]
    rfl
  · intro G hG row hrow
    cases hra : (csv.NewReader contents.toList).ReadAll with
    | mk R err =>
      cases err with
      | some e =>
        rw [prepare_err s filename contents R e hopen hra] at hG
        simp [Outcome.value?] at hG
      | none =>
        rw [prepare_ok s filename contents R hopen hra] at hG
        simp only [Outcome.value?, Option.some.injEq, Prod.mk.injEq, and_true] at hG
        subst hG
        have hrect := csv.ReadAll_rectangular contents.toList R hra
        have hlens := copyRecords_lens R
        have hmem : row.len ∈ (copyRecords R).toList.map Slice.len :=
          List.mem_map_of_mem _ hrow
        rw [hlens] at hmem
        obtain ⟨r, hr, hrlen⟩ := List.mem_map.mp hmem
        rw [← headD_map_len, hlens, headD_map_length, ← hrlen]
        exact hrect r hr

theorem prepare_rejects_ragged_records_witness :
    (csvOnly "a,b\n1\n").files csvFile = some "a,b\n1\n" ∧
    (prepare csvFile (csvOnly "a,b\n1\n")).value? =
      some (Slice.nil,
        some (.errorf "reader.RealdAll() failed: %v" none (.csv .ErrFieldCount))) :=
  ⟨by decide,
    (prepare_rejects_ragged_records (csvOnly "a,b\n1\n") csvFile "a,b\n1\n" (by decide)).1
      [["a", "b"], ["1"]] (by decide) ⟨["a", "b"], by simp, ["1"], by simp, by decide⟩⟩

/-- C9, as stated, fails: the content `a,b\n1\n` is valid CSV whose two records
have two fields and one field, and `prepare` does not return a ragged grid for
it but the nil grid and a non-nil error. -/
theorem prepare_ragged_input_fails :
    ({ csv.NewReader "a,b\n1\n".toList with FieldsPerRecord := -1 }).ReadAll =
      ([["a", "b"], ["1"]], none) ∧
    (csv.NewReader "a,b\n1\n".toList).ReadAll = ([], some .ErrFieldCount) ∧
    (prepare csvFile (csvOnly "a,b\n1\n")).value? =
      some (Slice.nil,
        some (.errorf "reader.RealdAll() failed: %v" none (.csv .ErrFieldCount))) ∧
    ¬ ∃ G : Slice (Slice Iface),
      (prepare csvFile (csvOnly "a,b\n1\n")).value? = some (G, none) := by
  refine ⟨by decide, by decide, by decide, ?_⟩
  rintro ⟨G, hG⟩
  have h : (prepare csvFile (csvOnly "a,b\n1\n")).value? =
      some (Slice.nil,
        some (.errorf "reader.RealdAll() failed: %v" none (.csv .ErrFieldCount))) := by
    decide
  rw [h] at hG
  simp at hG

/-! ## The JSON document of a token -/

namespace json

theorem skipWs_cons (c : Char) (rest : List Char) (h : isWs c = false) :
    skipWs (c :: rest) = c :: rest := by
  simp [skipWs, h]

theorem hex4_hexDigit : ∀ n < 32, hex4 '0' '0' (hexDigit (n / 16)) (hexDigit (n % 16)) = some n := by
  decide

/-- Reading back the characters of a JSON string gives the string. -/
theorem stringBody_escapeText (s rest : List Char) :
    stringBody (escapeText s ++ '"' :: rest) = some (s, rest) := by
  induction s with
  | nil =>
    rw [stringBody.eq_def]
    simp [escapeText]
  | cons c cs ih =>
    by_cases h1 : c = '"'
    · subst h1
      simp only [escapeText, escapeChar, if_true, List.cons_append, List.nil_append]
      rw [stringBody.eq_def]
      simp [unescape, ih]
    · by_cases h2 : c = '\\'
      · subst h2
        simp only [escapeText, escapeChar, h1, if_false, if_true, List.cons_append,
          List.nil_append]
        rw [stringBody.eq_def]
        simp [unescape, ih]
      · by_cases h3 : c.toNat < 32
        · have hhex := hex4_hexDigit c.toNat h3
          have hlt : c.toNat < 55296 := by omega
          simp only [escapeText, escapeChar, h1, h2, h3, if_false, if_true, List.cons_append,
            List.nil_append]
          rw [stringBody.eq_def]
          simp [hhex, hlt, ih]
        · simp only [escapeText, escapeChar, h1, h2, h3, if_false, List.cons_append,
            List.nil_append]
          rw [stringBody.eq_def]
          simp [h1, h2, h3, ih]

theorem quoteText_append (s rest : List Char) :
    quoteText s ++ rest = '"' :: (escapeText s ++ '"' :: rest) := by
  simp [quoteText]

/-- Reading back a JSON string gives the string. -/
theorem parseString_quoteText (s rest : List Char) :
    parseString (quoteText s ++ rest) = some (String.mk s, rest) := by
  rw [quoteText_append]
  simp [parseString, stringBody_escapeText]

theorem digitChar_toNat : ∀ d < 10, (digitChar d).toNat = 48 + d := by
  decide

/-- The decimal digits of a number: at least one, all of them digits. -/
theorem natTextAux_eq (fuel n : Nat) (acc : List Char) (h : n < fuel) :
    ∃ l : List Char, l ≠ [] ∧ (∀ c ∈ l, 48 ≤ c.toNat ∧ c.toNat ≤ 57) ∧
      natTextAux fuel n acc = l ++ acc := by
  induction fuel generalizing n acc with
  | zero => omega
  | succ fuel ih =>
    simp only [natTextAux]
    split
    · rename_i hlt
      refine ⟨[digitChar n], by simp, ?_, rfl⟩
      intro c hc
      simp only [List.mem_singleton] at hc
      rw [hc, digitChar_toNat n hlt]
      omega
    · rename_i hge
      obtain ⟨l, hne, hdig, heq⟩ := ih (n / 10) (digitChar (n % 10) :: acc) (by omega)
      refine ⟨l ++ [digitChar (n % 10)], by simp, ?_, by simp [heq]⟩
      intro c hc
      rcases List.mem_append.mp hc with hc | hc
      · exact hdig c hc
      · simp only [List.mem_singleton] at hc
        rw [hc, digitChar_toNat (n % 10) (by omega)]
        omega

/-- The decimal digits of a number stand for it. -/
theorem foldl_natTextAux (fuel n : Nat) (acc : List Char) (h : n < fuel) :
    (natTextAux fuel n acc).foldl (fun a c => 10 * a + (c.toNat - 48)) 0 =
      acc.foldl (fun a c => 10 * a + (c.toNat - 48)) n := by
  induction fuel generalizing n acc with
  | zero => omega
  | succ fuel ih =>
    simp only [natTextAux]
    split
    · rename_i hlt
      simp [List.foldl_cons, digitChar_toNat n hlt]
    · rename_i hge
      rw [ih (n / 10) _ (by omega)]
      simp only [List.foldl_cons, digitChar_toNat (n % 10) (by omega)]
      congr 1
      omega

theorem digitsValue_natText (n : Nat) : digitsValue (natText n) = n := by
  simp [digitsValue, natText, foldl_natTextAux (n + 1) n [] (by omega)]

theorem takeDigits_append (l : List Char) (c : Char) (r : List Char)
    (hl : ∀ x ∈ l, 48 ≤ x.toNat ∧ x.toNat ≤ 57) (hc : ¬ (48 ≤ c.toNat ∧ c.toNat ≤ 57)) :
    takeDigits (l ++ c :: r) = (l, c :: r) := by
  induction l with
  | nil => simp [takeDigits, hc]
  | cons x xs ih =>
    have hx := hl x (List.mem_cons_self _ _)
    have hxs := ih (fun y hy => hl y (List.mem_cons_of_mem _ hy))
    simp [takeDigits, hx, hxs]

/-- Reading back a JSON integer that a comma follows gives the integer. -/
theorem parseInt_intText (n : Int) (r : List Char) :
    parseInt (intText n ++ ',' :: r) = some (n, ',' :: r) := by
  obtain ⟨l, hne, hdig, heq⟩ := natTextAux_eq (n.natAbs + 1) n.natAbs [] (by omega)
  simp only [List.append_nil] at heq
  have htext : natText n.natAbs = l := heq
  have hval : digitsValue l = n.natAbs := by rw [← htext]; exact digitsValue_natText _
  have htake : takeDigits (l ++ ',' :: r) = (l, ',' :: r) :=
    takeDigits_append l ',' r hdig (by decide)
  by_cases hneg : n < 0
  · simp only [intText, hneg, if_true, htext, List.cons_append]
    simp only [parseInt, htake, hne, isFraction]
    simp [hval]
    rw [abs_of_neg hneg]
    omega
  · simp only [intText, hneg, if_false, htext]
    obtain ⟨d, tl, hl⟩ : ∃ d tl, l = d :: tl := by
      cases l with
      | nil => exact absurd rfl hne
      | cons d tl => exact ⟨d, tl, rfl⟩
    have hd := hdig d (by simp [hl])
    have hdash : d ≠ '-' := by
      intro h
      rw [h] at hd
      revert hd
      decide
    have hmatch : parseInt (l ++ ',' :: r) =
        if (takeDigits (l ++ ',' :: r)).1 = [] ∨ isFraction (takeDigits (l ++ ',' :: r)).2
        then none
        else some ((digitsValue (takeDigits (l ++ ',' :: r)).1 : Int),
          (takeDigits (l ++ ',' :: r)).2) := by
      rw [hl]
      simp only [List.cons_append, parseInt]
      split
      · rename_i heq2
        simp only [List.cons.injEq] at heq2
        exact absurd heq2.1 hdash
      · rfl
    rw [hmatch, htake]
    simp [hne, isFraction, hval]
    omega

theorem skipWs_quoteText (s rest : List Char) :
    skipWs (quoteText s ++ rest) = quoteText s ++ rest := by
  rw [quoteText_append]
  exact skipWs_cons _ _ (by decide)

/-- Reading back the elements of a JSON array of strings gives the strings. -/
theorem stringsLoop_stringsTail (t : List String) (s : String) (acc : List String)
    (fuel : Nat) (rest : List Char) (hfuel : t.length < fuel) :
    stringsLoop fuel (quoteText s.toList ++ (stringsTail t ++ rest)) acc =
      some (acc ++ s :: t, rest) := by
  induction t generalizing s acc fuel with
  | nil =>
    cases fuel with
    | zero => omega
    | succ fuel =>
      simp only [stringsLoop, parseString_quoteText, stringsTail, List.cons_append,
        List.nil_append]
      rw [skipWs_cons _ _ (by decide)]
      rfl
  | cons s1 t1 ih =>
    cases fuel with
    | zero => omega
    | succ fuel =>
      simp only [List.length_cons] at hfuel
      simp only [stringsLoop, parseString_quoteText, stringsTail, List.cons_append]
      rw [skipWs_cons _ _ (by decide)]
      simp only [List.append_assoc]
      rw [skipWs_quoteText, ih s1 _ fuel (by omega)]
      simp

theorem length_stringsTail (t : List String) : t.length < (stringsTail t).length := by
  induction t with
  | nil => simp [stringsTail]
  | cons s t ih =>
    simp only [stringsTail, List.length_cons, List.length_append]
    omega

/-- Reading back a JSON array of strings gives the strings. -/
theorem parseStrings_stringsText (l : List String) (rest : List Char) :
    parseStrings (stringsText l ++ rest) = some (l, rest) := by
  cases l with
  | nil =>
    simp only [stringsText, List.cons_append, List.nil_append, parseStrings]
    rw [skipWs_cons _ _ (by decide)]
    rfl
  | cons s t =>
    have hlen : t.length < (quoteText s.toList ++ (stringsTail t ++ rest)).length := by
      have := length_stringsTail t
      simp only [List.length_append]
      omega
    have hloop := stringsLoop_stringsTail t s [] _ rest hlen
    simp only [stringsText, List.cons_append, List.append_assoc, parseStrings]
    rw [skipWs_quoteText]
    rw [quoteText_append] at hloop ⊢
    simpa using hloop

theorem isWs_digit (c : Char) (h : 48 ≤ c.toNat ∧ c.toNat ≤ 57) : isWs c = false := by
  have h1 : c ≠ ' ' := by intro hc; subst hc; revert h; decide
  have h2 : c ≠ '\n' := by intro hc; subst hc; revert h; decide
  have h3 : c ≠ '\r' := by intro hc; subst hc; revert h; decide
  have h4 : c ≠ '\t' := by intro hc; subst hc; revert h; decide
  simp [isWs, h1, h2, h3, h4]

theorem skipWs_intText (n : Int) (rest : List Char) :
    skipWs (intText n ++ rest) = intText n ++ rest := by
  obtain ⟨l, hne, hdig, heq⟩ := natTextAux_eq (n.natAbs + 1) n.natAbs [] (by omega)
  simp only [List.append_nil] at heq
  have htext : natText n.natAbs = l := heq
  by_cases hneg : n < 0
  · simp only [intText, hneg, if_true, List.cons_append]
    exact skipWs_cons _ _ (by decide)
  · simp only [intText, hneg, if_false, htext]
    cases l with
    | nil => exact absurd rfl hne
    | cons d tl =>
      exact skipWs_cons _ _ (isWs_digit d (hdig d (List.mem_cons_self _ _)))

theorem skipWs_stringsText (l : List String) (rest : List Char) :
    skipWs (stringsText l ++ rest) = stringsText l ++ rest := by
  cases l with
  | nil => exact skipWs_cons _ _ (by decide)
  | cons s t => exact skipWs_cons _ _ (by decide)

/-- One round of the loop over the members of an object. -/
theorem membersLoop_member (fuel : Nat) (key V : List Char) (tok : Token) :
    membersLoop (fuel + 1) (quoteText key ++ ':' :: V) tok =
      match setMember key (skipWs V) tok with
      | none => none
      | some (tok1, rest2) =>
        match skipWs rest2 with
        | ',' :: rest3 => membersLoop fuel (skipWs rest3) tok1
        | '}' :: rest3 => some (tok1, rest3)
        | _ => none := by
  rw [quoteText_append]
  simp only [membersLoop, stringBody_escapeText]
  rw [skipWs_cons _ _ (by decide)]
  rfl

/-- Reading back the members of the JSON document of a token gives the
token. -/
theorem membersLoop_encode (t : Token) (fuel : Nat) (rest : List Char) (tok : Token) :
    membersLoop (fuel + 4)
      (quoteText "access_token".toList ++ ':' :: (quoteText t.AccessToken.toList ++
        ',' :: (quoteText "refresh_token".toList ++ ':' :: (quoteText t.RefreshToken.toList ++
        ',' :: (quoteText "expiry".toList ++ ':' :: (intText t.Expiry ++
        ',' :: (quoteText "scopes".toList ++ ':' :: (stringsText t.Scopes ++
        '}' :: rest)))))))) tok = some (t, rest) := by
  have hk1 : ("access_token".toList = "access_token".toList) = True := by simp
  have hk2 : ("refresh_token".toList = "access_token".toList) = False := by
    simp only [eq_iff_iff, iff_false]; decide
  have hk3 : ("expiry".toList = "access_token".toList) = False := by
    simp only [eq_iff_iff, iff_false]; decide
  have hk4 : ("expiry".toList = "refresh_token".toList) = False := by
    simp only [eq_iff_iff, iff_false]; decide
  have hk5 : ("scopes".toList = "access_token".toList) = False := by
    simp only [eq_iff_iff, iff_false]; decide
  have hk6 : ("scopes".toList = "refresh_token".toList) = False := by
    simp only [eq_iff_iff, iff_false]; decide
  have hk7 : ("scopes".toList = "expiry".toList) = False := by
    simp only [eq_iff_iff, iff_false]; decide
  rw [show fuel + 4 = (fuel + 3) + 1 from rfl, membersLoop_member]
  simp only [setMember, hk1, if_true, skipWs_quoteText, parseString_quoteText]
  rw [skipWs_cons ',' _ (by decide)]
  simp only [skipWs_quoteText]
  rw [show fuel + 3 = (fuel + 2) + 1 from rfl, membersLoop_member]
  simp only [setMember, hk2, if_false, if_true, skipWs_quoteText, parseString_quoteText]
  rw [skipWs_cons ',' _ (by decide)]
  simp only [skipWs_quoteText]
  rw [show fuel + 2 = (fuel + 1) + 1 from rfl, membersLoop_member]
  simp only [setMember, hk3, hk4, if_false, if_true, skipWs_intText, parseInt_intText]
  rw [skipWs_cons ',' _ (by decide)]
  simp only [skipWs_quoteText]
  rw [membersLoop_member]
  simp only [setMember, hk5, hk6, hk7, if_false, if_true, skipWs_stringsText,
    parseStrings_stringsText]
  rw [skipWs_cons '}' _ (by decide)]
  cases t
  rfl

/-- Decoding the JSON document of a token gives the token, without error. -/
theorem decode_encode (t : Token) : decode (encode t) = (t, none) := by
  have hq : (quoteText "access_token".toList).length = 14 := by decide
  have hlen : ∀ l : List Char,
      (quoteText "access_token".toList ++ l).length =
        ((quoteText "access_token".toList ++ l).length - 4) + 4 := by
    intro l
    simp only [List.length_append, hq]
    omega
  have hmem := membersLoop_encode t
    ((quoteText "access_token".toList ++ ':' :: (quoteText t.AccessToken.toList ++
        ',' :: (quoteText "refresh_token".toList ++ ':' :: (quoteText t.RefreshToken.toList ++
        ',' :: (quoteText "expiry".toList ++ ':' :: (intText t.Expiry ++
        ',' :: (quoteText "scopes".toList ++ ':' :: (stringsText t.Scopes ++
        ['}', '\n'])))))))).length - 4) ['\n'] zeroToken
  rw [← hlen] at hmem
  have henc : (encode t).toList =
      '{' :: (quoteText "access_token".toList ++ ':' :: (quoteText t.AccessToken.toList ++
        ',' :: (quoteText "refresh_token".toList ++ ':' :: (quoteText t.RefreshToken.toList ++
        ',' :: (quoteText "expiry".toList ++ ':' :: (intText t.Expiry ++
        ',' :: (quoteText "scopes".toList ++ ':' :: (stringsText t.Scopes ++
        ['}', '\n'])))))))) := rfl
  simp only [decode, henc, parseObject]
  rw [skipWs_cons '{' _ (by decide)]
  simp only [skipWs_quoteText]
  rw [quoteText_append] at hmem ⊢
  split
  · rename_i heq
    split at heq
    · rename_i heq2
      simp only [List.cons.injEq] at heq2
      exact absurd heq2.1 (by decide)
    · rw [hmem] at heq
      simp only [Option.some.injEq, Prod.mk.injEq] at heq
      rw [heq.1]
  · rename_i heq
    split at heq
    · rename_i heq2
      simp only [List.cons.injEq] at heq2
      exact absurd heq2.1 (by decide)
    · rw [hmem] at heq
      cases heq

end json

/-! ## The token cache -/

theorem tokenFromFile_noFile (w : World) (file : String) (s : State)
    (h : s.files file = none) :
    tokenFromFile w file s =
      Outcome.ret (none, some (.os "open" file))
        { s with trace := s.trace ++ [.Open file (some (.os "open" file))] } := by
  simp [tokenFromFile, osOpen, h]

theorem tokenFromFile_file (w : World) (file content : String) (s : State)
    (h : s.files file = some content) :
    tokenFromFile w file s =
      Outcome.ret (some (w.Decode content).1, (w.Decode content).2)
        { s with trace := s.trace ++ [.Open file none, .Decode file (w.Decode content).2] } := by
  simp [tokenFromFile, osOpen, h]

/-- C10: when `tokenFromFile` succeeds with token `t`, `getClient` returns the
client built from `t`; the only calls it makes are the open and the decode of
token.json and `config.Client`, so the authorization flow is not entered and
token.json is neither truncated nor written; the files are as before. -/
theorem getClient_cached_token (w : World) (config : Config) (s : State) (t : Token)
    (h : (tokenFromFile w tokFile s).value? = some (some t, none)) :
    (getClient w config s).value? = some { config := config, tok := some t } ∧
    eventsOf (getClient w config) s =
      [.Open tokFile none, .Decode tokFile none, .Client (some t)] ∧
    (eventsOf (getClient w config) s).filter isAuthFlow = [] ∧
    (eventsOf (getClient w config) s).filter (isOpenFile tokFile) = [] ∧
    (eventsOf (getClient w config) s).filter (isEncode tokFile) = [] ∧
    (getClient w config s).state.files = s.files := by
  cases hf : s.files tokFile with
  | none =>
    rw [tokenFromFile_noFile w tokFile s hf] at h
    simp [Outcome.value?] at h
  | some content =>
    rw [tokenFromFile_file w tokFile content s hf] at h
    simp only [Outcome.value?, Option.some.injEq, Prod.mk.injEq] at h
    obtain ⟨h1, h2⟩ := h
    have hev : eventsOf (getClient w config) s =
        [.Open tokFile none, .Decode tokFile none, .Client (some t)] := by
      simp [eventsOf, getClient, tokenFromFile_file w tokFile content s hf, h1, h2,
        Config.Client, Outcome.state]
    refine ⟨?_, hev, ?_, ?_, ?_, ?_⟩
    · simp [getClient, tokenFromFile_file w tokFile content s hf, h1, h2, Config.Client,
        Outcome.value?]
    · rw [hev]; rfl
    · rw [hev]; rfl
    · rw [hev]; rfl
    · simp [getClient, tokenFromFile_file w tokFile content s hf, h1, h2, Config.Client,
        Outcome.state]

theorem getClient_cached_token_witness :
    (tokenFromFile sampleWorld tokFile (laterRun "a,b\n1,2\n")).value? =
      some (some sampleToken, none) ∧
    (getClient sampleWorld sampleConfig (laterRun "a,b\n1,2\n")).value? =
      some { config := sampleConfig, tok := some sampleToken } :=
  ⟨by decide,
    (getClient_cached_token sampleWorld sampleConfig (laterRun "a,b\n1,2\n") sampleToken
      (by decide)).1⟩

/-- The run of `getClient` after a failed `tokenFromFile`, by what the user,
the token endpoint and the file system answer: its calls, and how it ends. -/
theorem getClient_events_of_error (w : World) (config : Config) (s : State)
    (tok0 : Option Token) (e : Error)
    (h : (tokenFromFile w tokFile s).value? = some (tok0, some e)) :
    ∃ pre : List Event, pre.filter isAuthFlow = [] ∧ pre.filter (isEncode tokFile) = [] ∧
      ((∃ err, w.Scan = .error err ∧
          (getClient w config s).code? = some 1 ∧
          eventsOf (getClient w config) s =
            pre ++ [.Call "getTokenFromWeb",
              .Printf
                "Go to the following link in your browser then type the authorization code: \n%v\n"
                (w.AuthCodeURL config),
              .Scan (some err), .Fatalf "Unable to read authorization code: %v" err]) ∨
       (∃ authCode err, w.Scan = .ok authCode ∧ w.Exchange config authCode = .error err ∧
          (getClient w config s).code? = some 1 ∧
          eventsOf (getClient w config) s =
            pre ++ [.Call "getTokenFromWeb",
              .Printf
                "Go to the following link in your browser then type the authorization code: \n%v\n"
                (w.AuthCodeURL config),
              .Scan none, .Exchange authCode (some err),
              .Fatalf "Unable to retrieve token from web: %v" err]) ∨
       (∃ authCode tok err, w.Scan = .ok authCode ∧ w.Exchange config authCode = .ok tok ∧
          w.OpenFile tokFile = some err ∧
          (getClient w config s).code? = some 1 ∧
          eventsOf (getClient w config) s =
            pre ++ [.Call "getTokenFromWeb",
              .Printf
                "Go to the following link in your browser then type the authorization code: \n%v\n"
                (w.AuthCodeURL config),
              .Scan none, .Exchange authCode none, .Call "saveToken",
              .Printf "Saving credential file to: %s\n" tokFile,
              .OpenFile tokFile (some err),
              .Fatalf "Unable to cache oauth token: %v" err]) ∨
       (∃ authCode tok, w.Scan = .ok authCode ∧ w.Exchange config authCode = .ok tok ∧
          w.OpenFile tokFile = none ∧
          (getClient w config s).value? = some { config := config, tok := some tok } ∧
          (getClient w config s).state.files tokFile = some (w.Encode tokFile tok).1 ∧
          eventsOf (getClient w config) s =
            pre ++ [.Call "getTokenFromWeb",
              .Printf
                "Go to the following link in your browser then type the authorization code: \n%v\n"
                (w.AuthCodeURL config),
              .Scan none, .Exchange authCode none, .Call "saveToken",
              .Printf "Saving credential file to: %s\n" tokFile,
              .OpenFile tokFile none,
              .Encode tokFile tok (w.Encode tokFile tok).2,
              .Client (some tok)])) := by
  have key : ∃ (pre : List Event) (s1 : State),
      tokenFromFile w tokFile s = Outcome.ret (tok0, some e) s1 ∧
      s1.trace = s.trace ++ pre ∧ pre.filter isAuthFlow = [] ∧
      pre.filter (isEncode tokFile) = [] := by
    cases hf : s.files tokFile with
    | none =>
      rw [tokenFromFile_noFile w tokFile s hf] at h ⊢
      simp only [Outcome.value?, Option.some.injEq] at h
      exact ⟨[.Open tokFile (some (.os "open" tokFile))], _, by rw [h], rfl, rfl, rfl⟩
    | some content =>
      rw [tokenFromFile_file w tokFile content s hf] at h ⊢
      simp only [Outcome.value?, Option.some.injEq] at h
      exact ⟨[.Open tokFile none, .Decode tokFile (w.Decode content).2], _, by rw [h],
        rfl, rfl, rfl⟩
  obtain ⟨pre, s1, hs1, htr, hp1, hp2⟩ := key
  refine ⟨pre, hp1, hp2, ?_⟩
  cases hscan : w.Scan with
  | error err =>
    left
    refine ⟨err, rfl, ?_, ?_⟩
    · simp [getClient, hs1, getTokenFromWeb, hscan, Outcome.code?]
    · simp [eventsOf, getClient, hs1, getTokenFromWeb, hscan, Outcome.state, htr]
  | ok authCode =>
    right
    cases hex : w.Exchange config authCode with
    | error err =>
      left
      refine ⟨authCode, err, rfl, hex, ?_, ?_⟩
      · simp [getClient, hs1, getTokenFromWeb, hscan, hex, Outcome.code?]
      · simp [eventsOf, getClient, hs1, getTokenFromWeb, hscan, hex, Outcome.state, htr]
    | ok tok =>
      right
      cases hop : w.OpenFile tokFile with
      | some err =>
        left
        refine ⟨authCode, tok, err, rfl, hex, rfl, ?_, ?_⟩
        · simp [getClient, hs1, getTokenFromWeb, hscan, hex, saveToken, hop, Outcome.code?]
        · simp [eventsOf, getClient, hs1, getTokenFromWeb, hscan, hex, saveToken, hop,
            Outcome.state, htr]
      | none =>
        right
        refine ⟨authCode, tok, rfl, hex, rfl, ?_, ?_, ?_⟩
        · simp [getClient, hs1, getTokenFromWeb, hscan, hex, saveToken, hop, Config.Client,
            Outcome.value?]
        · simp [getClient, hs1, getTokenFromWeb, hscan, hex, saveToken, hop, Config.Client,
            Outcome.state]
        · simp [eventsOf, getClient, hs1, getTokenFromWeb, hscan, hex, saveToken, hop,
            Config.Client, Outcome.state, htr]

/-- C4, as amended: when `tokenFromFile` reports an error (token.json absent
or undecodable), `getClient` enters the authorization flow exactly once and
calls `Encode` on token.json at most once. When the authorization code cannot
be read, when its exchange fails, or when token.json cannot be opened for
writing, the process exits with code 1 and no write to token.json occurs.
When the flow returns a token `tok`, token.json opens and the write reports no
error, exactly one write to token.json occurs, after the flow, carrying `tok`
and without error; token.json then holds the text written and the client
returned is bound to `tok`. -/
theorem getClient_authorizes_once (w : World) (config : Config) (s : State)
    (tok0 : Option Token) (e : Error)
    (h : (tokenFromFile w tokFile s).value? = some (tok0, some e)) :
    ((eventsOf (getClient w config) s).filter isAuthFlow).length = 1 ∧
    ((eventsOf (getClient w config) s).filter (isEncode tokFile)).length ≤ 1 ∧
    (∀ err, w.Scan = .error err →
      (getClient w config s).code? = some 1 ∧
      (eventsOf (getClient w config) s).filter (isEncode tokFile) = []) ∧
    (∀ authCode err, w.Scan = .ok authCode → w.Exchange config authCode = .error err →
      (getClient w config s).code? = some 1 ∧
      (eventsOf (getClient w config) s).filter (isEncode tokFile) = []) ∧
    (∀ authCode tok err, w.Scan = .ok authCode → w.Exchange config authCode = .ok tok →
      w.OpenFile tokFile = some err →
      (getClient w config s).code? = some 1 ∧
      (eventsOf (getClient w config) s).filter (isEncode tokFile) = []) ∧
    (∀ authCode tok, w.Scan = .ok authCode → w.Exchange config authCode = .ok tok →
      w.OpenFile tokFile = none → (w.Encode tokFile tok).2 = none →
      (getClient w config s).value? = some { config := config, tok := some tok } ∧
      (getClient w config s).state.files tokFile = some (w.Encode tokFile tok).1 ∧
      (eventsOf (getClient w config) s).filter (isEncode tokFile) =
        [.Encode tokFile tok none] ∧
      ∃ pre post : List Event,
        eventsOf (getClient w config) s = pre ++ [.Encode tokFile tok none] ++ post ∧
        .Call "getTokenFromWeb" ∈ pre ∧ .Exchange authCode none ∈ pre ∧
        pre.filter (isEncode tokFile) = [] ∧ post.filter (isEncode tokFile) = []) := by
  obtain ⟨pre, hp1, hp2, hcases⟩ := getClient_events_of_error w config s tok0 e h
  rcases hcases with ⟨err, hscan, hcode, hev⟩ | ⟨authCode, err, hscan, hex, hcode, hev⟩ |
    ⟨authCode, tok, err, hscan, hex, hop, hcode, hev⟩ |
    ⟨authCode, tok, hscan, hex, hop, hval, hfile, hev⟩
  · have hnone : (eventsOf (getClient w config) s).filter (isEncode tokFile) = [] := by
      rw [hev, List.filter_append, hp2]; rfl
    refine ⟨?_, ?_, ?_, ?_, ?_, ?_⟩
    · rw [hev, List.filter_append, hp1]; rfl
    · rw [hnone]; simp
    · intro _ _; exact ⟨hcode, hnone⟩
    · intro _ _ _ _; exact ⟨hcode, hnone⟩
    · intro _ _ _ _ _ _; exact ⟨hcode, hnone⟩
    · intro authCode tok h1
      rw [hscan] at h1
      cases h1
  · have hnone : (eventsOf (getClient w config) s).filter (isEncode tokFile) = [] := by
      rw [hev, List.filter_append, hp2]; rfl
    refine ⟨?_, ?_, ?_, ?_, ?_, ?_⟩
    · rw [hev, List.filter_append, hp1]; rfl
    · rw [hnone]; simp
    · intro _ _; exact ⟨hcode, hnone⟩
    · intro _ _ _ _; exact ⟨hcode, hnone⟩
    · intro _ _ _ _ _ _; exact ⟨hcode, hnone⟩
    · intro authCode1 tok h1 h2
      rw [hscan] at h1
      cases h1
      rw [hex] at h2
      cases h2
  · have hnone : (eventsOf (getClient w config) s).filter (isEncode tokFile) = [] := by
      rw [hev, List.filter_append, hp2]; rfl
    refine ⟨?_, ?_, ?_, ?_, ?_, ?_⟩
    · rw [hev, List.filter_append, hp1]; rfl
    · rw [hnone]; simp
    · intro _ _; exact ⟨hcode, hnone⟩
    · intro _ _ _ _; exact ⟨hcode, hnone⟩
    · intro _ _ _ _ _ _; exact ⟨hcode, hnone⟩
    · intro authCode1 tok1 h1 h2 h3
      rw [hop] at h3
      cases h3
  · refine ⟨?_, ?_, ?_, ?_, ?_, ?_⟩
    · rw [hev, List.filter_append, hp1]; rfl
    · rw [hev, List.filter_append, hp2]
      simp [isEncode]
    · intro err h1
      rw [hscan] at h1
      cases h1
    · intro authCode1 err h1 h2
      rw [hscan] at h1
      cases h1
      rw [hex] at h2
      cases h2
    · intro authCode1 tok1 err _ _ h3
      rw [hop] at h3
      cases h3
    · intro authCode1 tok1 h1 h2 _ h4
      rw [hscan] at h1
      cases h1
      rw [hex] at h2
      cases h2
      rw [h4] at hev
      refine ⟨hval, hfile, ?_, pre ++ [.Call "getTokenFromWeb",
          .Printf
            "Go to the following link in your browser then type the authorization code: \n%v\n"
            (w.AuthCodeURL config),
          .Scan none, .Exchange authCode none, .Call "saveToken",
          .Printf "Saving credential file to: %s\n" tokFile,
          .OpenFile tokFile none], [.Client (some tok)], ?_, ?_, ?_, ?_, ?_⟩
      · rw [hev, List.filter_append, hp2]
        simp [isEncode]
      · rw [hev]; simp
      · simp
      · simp
      · rw [List.filter_append, hp2]; rfl
      · rfl

theorem getClient_authorizes_once_witness :
    (tokenFromFile sampleWorld tokFile (firstRun "a,b\n1,2\n")).value? =
      some (none, some (.os "open" tokFile)) ∧
    ((eventsOf (getClient sampleWorld sampleConfig) (firstRun "a,b\n1,2\n")).filter
      isAuthFlow).length = 1 ∧
    (getClient sampleWorld sampleConfig (firstRun "a,b\n1,2\n")).value? =
      some { config := sampleConfig, tok := some sampleToken } ∧
    (getClient sampleWorld sampleConfig (firstRun "a,b\n1,2\n")).state.files tokFile =
      some "token:at" ∧
    (eventsOf (getClient sampleWorld sampleConfig) (firstRun "a,b\n1,2\n")).filter
      (isEncode tokFile) = [.Encode tokFile sampleToken none] :=
  ⟨by decide,
    (getClient_authorizes_once sampleWorld sampleConfig (firstRun "a,b\n1,2\n") none
      (.os "open" tokFile) (by decide)).1,
    ((getClient_authorizes_once sampleWorld sampleConfig (firstRun "a,b\n1,2\n") none
      (.os "open" tokFile) (by decide)).2.2.2.2.2 "code" sampleToken rfl rfl rfl rfl).1,
    ((getClient_authorizes_once sampleWorld sampleConfig (firstRun "a,b\n1,2\n") none
      (.os "open" tokFile) (by decide)).2.2.2.2.2 "code" sampleToken rfl rfl rfl rfl).2.1,
    ((getClient_authorizes_once sampleWorld sampleConfig (firstRun "a,b\n1,2\n") none
      (.os "open" tokFile) (by decide)).2.2.2.2.2 "code" sampleToken rfl rfl rfl rfl).2.2.1⟩

/-- C4, as stated, fails: in each of three runs token.json is absent and the
authorization flow is entered once, but the authorization code cannot be read,
or its exchange fails, or token.json cannot be opened for writing; the process
exits with code 1 and no write to token.json occurs. -/
theorem getClient_failed_authorization_writes_nothing :
    (firstRun "a,b\n1,2\n").files tokFile = none ∧
    (((eventsOf (getClient noScanWorld sampleConfig) (firstRun "a,b\n1,2\n")).filter
        isAuthFlow).length = 1 ∧
      ((eventsOf (getClient noScanWorld sampleConfig) (firstRun "a,b\n1,2\n")).filter
        (isEncode tokFile)).length = 0 ∧
      (getClient noScanWorld sampleConfig (firstRun "a,b\n1,2\n")).code? = some 1) ∧
    (((eventsOf (getClient noExchangeWorld sampleConfig) (firstRun "a,b\n1,2\n")).filter
        isAuthFlow).length = 1 ∧
      ((eventsOf (getClient noExchangeWorld sampleConfig) (firstRun "a,b\n1,2\n")).filter
        (isEncode tokFile)).length = 0 ∧
      (getClient noExchangeWorld sampleConfig (firstRun "a,b\n1,2\n")).code? = some 1) ∧
    (((eventsOf (getClient readOnlyWorld sampleConfig) (firstRun "a,b\n1,2\n")).filter
        isAuthFlow).length = 1 ∧
      ((eventsOf (getClient readOnlyWorld sampleConfig) (firstRun "a,b\n1,2\n")).filter
        (isEncode tokFile)).length = 0 ∧
      (getClient readOnlyWorld sampleConfig (firstRun "a,b\n1,2\n")).code? = some 1) := by
  decide

/-- C3, as amended: with the token persisted as its JSON document, for every
token `t` and every path `p` that can be opened for writing, when the write of
the document reports no error, `saveToken(p, t)` followed by
`tokenFromFile(p)` returns `t` itself with a nil error, whatever the file held
before. -/
theorem saveToken_then_tokenFromFile (w : World) (p : String) (t : Token) (s : State)
    (hopen : w.OpenFile p = none) (hwrite : (w.Encode p t).2 = none) :
    ((saveToken (jsonWorld w) p t >>= fun _ => tokenFromFile (jsonWorld w) p) s).value? =
      some (some t, none) := by
  simp [saveToken, jsonWorld, hopen, hwrite, tokenFromFile, osOpen, json.decode_encode,
    Outcome.value?]

theorem saveToken_then_tokenFromFile_witness :
    sampleWorld.OpenFile tokFile = none ∧
    (sampleWorld.Encode tokFile sampleToken).2 = none ∧
    ((saveToken (jsonWorld sampleWorld) tokFile sampleToken >>= fun _ =>
      tokenFromFile (jsonWorld sampleWorld) tokFile) (laterRun "a,b\n1,2\n")).value? =
      some (some sampleToken, none) :=
  ⟨by decide, by decide,
    saveToken_then_tokenFromFile sampleWorld tokFile sampleToken (laterRun "a,b\n1,2\n")
      (by decide) (by decide)⟩

/-- C3, as stated, fails: where token.json cannot be created, `saveToken` ends
the process with exit code 1, so that `tokenFromFile` is not reached, and
reading the path afterwards finds no token. -/
theorem saveToken_unwritable_path_exits :
    (saveToken (jsonWorld readOnlyWorld) tokFile sampleToken
      (firstRun "a,b\n1,2\n")).code? = some 1 ∧
    ((saveToken (jsonWorld readOnlyWorld) tokFile sampleToken >>= fun _ =>
      tokenFromFile (jsonWorld readOnlyWorld) tokFile) (firstRun "a,b\n1,2\n")).value? =
      none ∧
    (tokenFromFile (jsonWorld readOnlyWorld) tokFile
      (saveToken (jsonWorld readOnlyWorld) tokFile sampleToken
        (firstRun "a,b\n1,2\n")).state).value? =
      some (none, some (.os "open" tokFile)) := by
  decide

/-- In `saveToken` a failed open of the file ends the process. -/
theorem saveToken_open_failure_exits (w : World) (path : String) (token : Token) (s : State)
    (err : Error) (h : w.OpenFile path = some err) :
    (saveToken w path token s).code? = some 1 := by
  simp [saveToken, h, Outcome.code?]

/-- In `saveToken` a failed write of the token does not: once the file is
open `saveToken` returns, whatever `Encode` reports. -/
theorem saveToken_returns_after_open (w : World) (path : String) (token : Token) (s : State)
    (h : w.OpenFile path = none) :
    (saveToken w path token s).value? = some () ∧
    (saveToken w path token s).state.files path = some (w.Encode path token).1 := by
  simp [saveToken, h, Outcome.value?, Outcome.state]

/-- C7, on the code: the write of the token fails (no space left on the
device), `saveToken` drops the error of `Encode`, and the run goes on to build
the client, create the spreadsheet and upload the grid; it ends without an
exit, token.json left empty. -/
theorem main_continues_after_failed_token_write :
    (Event.Encode tokFile sampleToken (some (.lib "no space left on device"))) ∈
      (main diskFullWorld (firstRun "a,b\n1,2\n")).state.trace ∧
    (main diskFullWorld (firstRun "a,b\n1,2\n")).code? = none ∧
    (main diskFullWorld (firstRun "a,b\n1,2\n")).state.trace.drop 11 =
      [.Client (some sampleToken), .New none, .Create "Summary" none,
        .LogPrintf "Created %s" "url1", .Open csvFile none, .ReadAll csvFile none,
        .BatchUpdate "id1"
          { ValueInputOption := "RAW",
            Data := [{ Range := "A1",
                       Values := Slice.mk [Slice.mk [.str "a", .str "b"],
                         Slice.mk [.str "1", .str "2"]] }] } none,
        .PrintResp { SpreadsheetId := "id1", TotalUpdatedCells := 4 }] ∧
    (main diskFullWorld (firstRun "a,b\n1,2\n")).state.files tokFile = some "" := by
  decide

/-! ## The driver -/

theorem Outcome.eq_ret_of_value {α : Type} (o : Outcome α) (a : α)
    (h : o.value? = some a) : o = Outcome.ret a o.state := by
  cases o with
  | ret b s => simp [Outcome.value?] at h; simp [Outcome.state, h]
  | exit c s => simp [Outcome.value?] at h

theorem Outcome.eq_exit_of_code {α : Type} (o : Outcome α) (c : Nat)
    (h : o.code? = some c) : o = Outcome.exit c o.state := by
  cases o with
  | ret b s => simp [Outcome.code?] at h
  | exit d s => simp [Outcome.code?] at h; simp [Outcome.state, h]

/-- What `getClient` does, seen from the driver: it makes at least one call,
all its calls belong to the Authenticate step, and it either returns a client
bound to some token, leaving every file but token.json as it was, or ends the
process with exit code 1 after a `log.Fatalf`. None of its failed calls goes
without a `log.Fatalf`, except the reads of token.json and the write of the
token: either no other call fails, or the process exits and the failed call is
the last. -/
theorem getClient_spec (w : World) (config : Config) (s : State) :
    ∃ T : List Event, T ≠ [] ∧ (∀ e ∈ T, stepOf e = some .Authenticate) ∧
      ((∀ e ∈ T, mustBeFatal notFatal e = false) ∨
        ((getClient w config s).code? = some 1 ∧
          ∃ T0 x, T = T0 ++ [x] ∧ ∀ e ∈ T0, mustBeFatal notFatal e = false)) ∧
      ((∃ tok, (getClient w config s).value? = some { config := config, tok := some tok } ∧
          (getClient w config s).state.trace = s.trace ++ T ∧
          ∀ p, p ≠ tokFile → (getClient w config s).state.files p = s.files p) ∨
       (∃ f e, (getClient w config s).code? = some 1 ∧
          (getClient w config s).state.trace = s.trace ++ T ++ [.Fatalf f e])) := by
  cases hf : s.files tokFile with
  | some content =>
    cases hd : (w.Decode content).2 with
    | none =>
      refine ⟨[.Open tokFile none, .Decode tokFile none, .Client (some (w.Decode content).1)],
        by simp, by simp [stepOf],
        Or.inl (by simp [mustBeFatal, notFatal, Event.err?, isTokenRead, isEncode]),
        Or.inl ⟨(w.Decode content).1, ?_, ?_, ?_⟩⟩ <;>
      simp [getClient, tokenFromFile_file w tokFile content s hf, hd, Config.Client,
        Outcome.value?, Outcome.state]
    | some e0 =>
      cases hscan : w.Scan with
      | error err =>
        have hc : (getClient w config s).code? = some 1 := by
          simp [getClient, tokenFromFile_file w tokFile content s hf, hd, getTokenFromWeb, hscan, Outcome.code?]
        refine ⟨[.Open tokFile none,
            .Decode tokFile (some e0),
            .Call "getTokenFromWeb",
            .Printf
            "Go to the following link in your browser then type the authorization code: \n%v\n"
            (w.AuthCodeURL config),
            .Scan (some err)],
          by simp, by simp [stepOf],
          Or.inr ⟨hc, [.Open tokFile none,
              .Decode tokFile (some e0),
              .Call "getTokenFromWeb",
              .Printf
            "Go to the following link in your browser then type the authorization code: \n%v\n"
            (w.AuthCodeURL config)],
            .Scan (some err), rfl, by simp [mustBeFatal, notFatal, Event.err?, isTokenRead, isEncode]⟩,
          Or.inr ⟨"Unable to read authorization code: %v", err, hc, ?_⟩⟩
        simp [getClient, tokenFromFile_file w tokFile content s hf, hd, getTokenFromWeb, hscan, Outcome.state]
      | ok authCode =>
        cases hex : w.Exchange config authCode with
        | error err =>
          have hc : (getClient w config s).code? = some 1 := by
            simp [getClient, tokenFromFile_file w tokFile content s hf, hd, getTokenFromWeb, hscan, hex, Outcome.code?]
          refine ⟨[.Open tokFile none,
              .Decode tokFile (some e0),
              .Call "getTokenFromWeb",
              .Printf
            "Go to the following link in your browser then type the authorization code: \n%v\n"
            (w.AuthCodeURL config),
              .Scan none,
              .Exchange authCode (some err)],
            by simp, by simp [stepOf],
            Or.inr ⟨hc, [.Open tokFile none,
                .Decode tokFile (some e0),
                .Call "getTokenFromWeb",
                .Printf
            "Go to the following link in your browser then type the authorization code: \n%v\n"
            (w.AuthCodeURL config),
                .Scan none],
              .Exchange authCode (some err), rfl, by simp [mustBeFatal, notFatal, Event.err?, isTokenRead, isEncode]⟩,
            Or.inr ⟨"Unable to retrieve token from web: %v", err, hc, ?_⟩⟩
          simp [getClient, tokenFromFile_file w tokFile content s hf, hd, getTokenFromWeb, hscan, hex, Outcome.state]
        | ok tok =>
          cases hop : w.OpenFile tokFile with
          | some err =>
            have hc : (getClient w config s).code? = some 1 := by
              simp [getClient, tokenFromFile_file w tokFile content s hf, hd, getTokenFromWeb, hscan, hex, saveToken, hop, Outcome.code?]
            refine ⟨[.Open tokFile none,
                .Decode tokFile (some e0),
                .Call "getTokenFromWeb",
                .Printf
            "Go to the following link in your browser then type the authorization code: \n%v\n"
            (w.AuthCodeURL config),
                .Scan none,
                .Exchange authCode none,
                .Call "saveToken",
                .Printf "Saving credential file to: %s\n" tokFile,
                .OpenFile tokFile (some err)],
              by simp, by simp [stepOf],
              Or.inr ⟨hc, [.Open tokFile none,
                  .Decode tokFile (some e0),
                  .Call "getTokenFromWeb",
                  .Printf
            "Go to the following link in your browser then type the authorization code: \n%v\n"
            (w.AuthCodeURL config),
                  .Scan none,
                  .Exchange authCode none,
                  .Call "saveToken",
                  .Printf "Saving credential file to: %s\n" tokFile],
                .OpenFile tokFile (some err), rfl, by simp [mustBeFatal, notFatal, Event.err?, isTokenRead, isEncode]⟩,
              Or.inr ⟨"Unable to cache oauth token: %v", err, hc, ?_⟩⟩
            simp [getClient, tokenFromFile_file w tokFile content s hf, hd, getTokenFromWeb, hscan, hex, saveToken, hop, Outcome.state]
          | none =>
            refine ⟨[.Open tokFile none,
                .Decode tokFile (some e0),
                .Call "getTokenFromWeb",
                .Printf
            "Go to the following link in your browser then type the authorization code: \n%v\n"
            (w.AuthCodeURL config),
                .Scan none,
                .Exchange authCode none,
                .Call "saveToken",
                .Printf "Saving credential file to: %s\n" tokFile,
                .OpenFile tokFile none,
                .Encode tokFile tok (w.Encode tokFile tok).2,
                .Client (some tok)],
              by simp, by simp [stepOf],
              Or.inl (by simp [mustBeFatal, notFatal, Event.err?, isTokenRead, isEncode]),
              Or.inl ⟨tok, ?_, ?_, ?_⟩⟩
            · simp [getClient, tokenFromFile_file w tokFile content s hf, hd, getTokenFromWeb, hscan, hex, saveToken, hop, Config.Client, Outcome.value?]
            · simp [getClient, tokenFromFile_file w tokFile content s hf, hd, getTokenFromWeb, hscan, hex, saveToken, hop, Config.Client, Outcome.state]
            · intro p hp
              simp [getClient, tokenFromFile_file w tokFile content s hf, hd, getTokenFromWeb, hscan, hex, saveToken, hop, Config.Client, Outcome.state, hp]
  | none =>
    cases hscan : w.Scan with
    | error err =>
      have hc : (getClient w config s).code? = some 1 := by
        simp [getClient, tokenFromFile_noFile w tokFile s hf, getTokenFromWeb, hscan, Outcome.code?]
      refine ⟨[.Open tokFile (some (.os "open" tokFile)),
          .Call "getTokenFromWeb",
          .Printf
            "Go to the following link in your browser then type the authorization code: \n%v\n"
            (w.AuthCodeURL config),
          .Scan (some err)],
        by simp, by simp [stepOf],
        Or.inr ⟨hc, [.Open tokFile (some (.os "open" tokFile)),
            .Call "getTokenFromWeb",
            .Printf
            "Go to the following link in your browser then type the authorization code: \n%v\n"
            (w.AuthCodeURL config)],
          .Scan (some err), rfl, by simp [mustBeFatal, notFatal, Event.err?, isTokenRead, isEncode]⟩,
        Or.inr ⟨"Unable to read authorization code: %v", err, hc, ?_⟩⟩
      simp [getClient, tokenFromFile_noFile w tokFile s hf, getTokenFromWeb, hscan, Outcome.state]
    | ok authCode =>
      cases hex : w.Exchange config authCode with
      | error err =>
        have hc : (getClient w config s).code? = some 1 := by
          simp [getClient, tokenFromFile_noFile w tokFile s hf, getTokenFromWeb, hscan, hex, Outcome.code?]
        refine ⟨[.Open tokFile (some (.os "open" tokFile)),
            .Call "getTokenFromWeb",
            .Printf
            "Go to the following link in your browser then type the authorization code: \n%v\n"
            (w.AuthCodeURL config),
            .Scan none,
            .Exchange authCode (some err)],
          by simp, by simp [stepOf],
          Or.inr ⟨hc, [.Open tokFile (some (.os "open" tokFile)),
              .Call "getTokenFromWeb",
              .Printf
            "Go to the following link in your browser then type the authorization code: \n%v\n"
            (w.AuthCodeURL config),
              .Scan none],
            .Exchange authCode (some err), rfl, by simp [mustBeFatal, notFatal, Event.err?, isTokenRead, isEncode]⟩,
          Or.inr ⟨"Unable to retrieve token from web: %v", err, hc, ?_⟩⟩
        simp [getClient, tokenFromFile_noFile w tokFile s hf, getTokenFromWeb, hscan, hex, Outcome.state]
      | ok tok =>
        cases hop : w.OpenFile tokFile with
        | some err =>
          have hc : (getClient w config s).code? = some 1 := by
            simp [getClient, tokenFromFile_noFile w tokFile s hf, getTokenFromWeb, hscan, hex, saveToken, hop, Outcome.code?]
          refine ⟨[.Open tokFile (some (.os "open" tokFile)),
              .Call "getTokenFromWeb",
              .Printf
            "Go to the following link in your browser then type the authorization code: \n%v\n"
            (w.AuthCodeURL config),
              .Scan none,
              .Exchange authCode none,
              .Call "saveToken",
              .Printf "Saving credential file to: %s\n" tokFile,
              .OpenFile tokFile (some err)],
            by simp, by simp [stepOf],
            Or.inr ⟨hc, [.Open tokFile (some (.os "open" tokFile)),
                .Call "getTokenFromWeb",
                .Printf
            "Go to the following link in your browser then type the authorization code: \n%v\n"
            (w.AuthCodeURL config),
                .Scan none,
                .Exchange authCode none,
                .Call "saveToken",
                .Printf "Saving credential file to: %s\n" tokFile],
              .OpenFile tokFile (some err), rfl, by simp [mustBeFatal, notFatal, Event.err?, isTokenRead, isEncode]⟩,
            Or.inr ⟨"Unable to cache oauth token: %v", err, hc, ?_⟩⟩
          simp [getClient, tokenFromFile_noFile w tokFile s hf, getTokenFromWeb, hscan, hex, saveToken, hop, Outcome.state]
        | none =>
          refine ⟨[.Open tokFile (some (.os "open" tokFile)),
              .Call "getTokenFromWeb",
              .Printf
            "Go to the following link in your browser then type the authorization code: \n%v\n"
            (w.AuthCodeURL config),
              .Scan none,
              .Exchange authCode none,
              .Call "saveToken",
              .Printf "Saving credential file to: %s\n" tokFile,
              .OpenFile tokFile none,
              .Encode tokFile tok (w.Encode tokFile tok).2,
              .Client (some tok)],
            by simp, by simp [stepOf],
            Or.inl (by simp [mustBeFatal, notFatal, Event.err?, isTokenRead, isEncode]),
            Or.inl ⟨tok, ?_, ?_, ?_⟩⟩
          · simp [getClient, tokenFromFile_noFile w tokFile s hf, getTokenFromWeb, hscan, hex, saveToken, hop, Config.Client, Outcome.value?]
          · simp [getClient, tokenFromFile_noFile w tokFile s hf, getTokenFromWeb, hscan, hex, saveToken, hop, Config.Client, Outcome.state]
          · intro p hp
            simp [getClient, tokenFromFile_noFile w tokFile s hf, getTokenFromWeb, hscan, hex, saveToken, hop, Config.Client, Outcome.state, hp]

/-- The runs of `main`, by the first call that fails. `T` stands for the calls
of `getClient`. -/
theorem main_spec (w : World) (s : State) :
    (s.files "credentials.json" = none ∧ (main w s).code? = some 1 ∧
      eventsOf (main w) s =
        [.ReadFile "credentials.json" (some (.os "open" "credentials.json")),
          .Fatalf "Unable to read client secret file: %v" (.os "open" "credentials.json")]) ∨
    (∃ err, (main w s).code? = some 1 ∧
      eventsOf (main w) s =
        [.ReadFile "credentials.json" none,
          .ConfigFromJSON "https://www.googleapis.com/auth/spreadsheets" (some err),
          .Fatalf "Unable to parse client secret file to config: %v" err]) ∨
    (∃ T : List Event, T ≠ [] ∧ (∀ e ∈ T, stepOf e = some .Authenticate) ∧
      ((∀ e ∈ T, mustBeFatal notFatal e = false) ∨
        ((∃ f e, eventsOf (main w) s =
            [.ReadFile "credentials.json" none,
              .ConfigFromJSON "https://www.googleapis.com/auth/spreadsheets" none] ++ T ++
              [.Fatalf f e]) ∧
          ∃ T0 x, T = T0 ++ [x] ∧ ∀ e ∈ T0, mustBeFatal notFatal e = false)) ∧
      ((∃ f e, (main w s).code? = some 1 ∧
          eventsOf (main w) s =
              [.ReadFile "credentials.json" none,
                .ConfigFromJSON "https://www.googleapis.com/auth/spreadsheets" none] ++ T ++ [.Fatalf f e]) ∨
       (∃ err, (main w s).code? = some 1 ∧
          eventsOf (main w) s =

                [.ReadFile "credentials.json" none,
                  .ConfigFromJSON "https://www.googleapis.com/auth/spreadsheets" none] ++ T ++
              [.New (some err), .Fatalf "Unable to retrieve Sheets client: %v" err]) ∨
       (∃ err, (main w s).code? = some 1 ∧
          eventsOf (main w) s =

                [.ReadFile "credentials.json" none,
                  .ConfigFromJSON "https://www.googleapis.com/auth/spreadsheets" none] ++ T ++
              [.New none, .Create "Summary" (some err),
                .Fatalf "Failed to create a spreadsheet: %v" err]) ∨
       (∃ url, s.files csvFile = none ∧ (main w s).code? = some 1 ∧
          eventsOf (main w) s =

                [.ReadFile "credentials.json" none,
                  .ConfigFromJSON "https://www.googleapis.com/auth/spreadsheets" none] ++ T ++
              [.New none, .Create "Summary" none, .LogPrintf "Created %s" url,
                .Open csvFile (some (.os "open" csvFile)),
                .Fatalf "Failed to read the csv file: %v"
                  (.errorf "os.Open(%q) failed: %v" (some csvFile) (.os "open" csvFile))]) ∨
       (∃ url content recs e, s.files csvFile = some content ∧
          (csv.NewReader content.toList).ReadAll = (recs, some e) ∧
          (main w s).code? = some 1 ∧
          eventsOf (main w) s =

                [.ReadFile "credentials.json" none,
                  .ConfigFromJSON "https://www.googleapis.com/auth/spreadsheets" none] ++ T ++
              [.New none, .Create "Summary" none, .LogPrintf "Created %s" url,
                .Open csvFile none, .ReadAll csvFile (some (.csv e)),
                .Fatalf "Failed to read the csv file: %v"
                  (.errorf "reader.RealdAll() failed: %v" none (.csv e))]) ∨
       (∃ srv resp content R err,
          w.Create srv { Title := "Summary", SpreadsheetId := "", SpreadsheetUrl := "" } =
            .ok resp ∧
          s.files csvFile = some content ∧
          (csv.NewReader content.toList).ReadAll = (R, none) ∧
          (main w s).code? = some 1 ∧
          eventsOf (main w) s =

                [.ReadFile "credentials.json" none,
                  .ConfigFromJSON "https://www.googleapis.com/auth/spreadsheets" none] ++ T ++
              [.New none, .Create "Summary" none, .LogPrintf "Created %s" resp.SpreadsheetUrl,
                .Open csvFile none, .ReadAll csvFile none,
                .BatchUpdate resp.SpreadsheetId
                  { ValueInputOption := "RAW",
                    Data := [{ Range := "A1", Values := copyRecords R }] } (some err),
                .Fatalf "BatchUpdate() failed: %v" err]) ∨
       (∃ srv resp content R updateResp,
          w.Create srv { Title := "Summary", SpreadsheetId := "", SpreadsheetUrl := "" } =
            .ok resp ∧
          s.files csvFile = some content ∧
          (csv.NewReader content.toList).ReadAll = (R, none) ∧
          (main w s).code? = none ∧
          eventsOf (main w) s =

                [.ReadFile "credentials.json" none,
                  .ConfigFromJSON "https://www.googleapis.com/auth/spreadsheets" none] ++ T ++
              [.New none, .Create "Summary" none, .LogPrintf "Created %s" resp.SpreadsheetUrl,
                .Open csvFile none, .ReadAll csvFile none,
                .BatchUpdate resp.SpreadsheetId
                  { ValueInputOption := "RAW",
                    Data := [{ Range := "A1", Values := copyRecords R }] } none,
                .PrintResp updateResp]))) := by
  cases hcred : s.files "credentials.json" with
  | none =>
    left
    refine ⟨rfl, ?_, ?_⟩ <;> simp [main, hcred, eventsOf, Outcome.code?, Outcome.state]
  | some b =>
    right
    cases hcfg : w.ConfigFromJSON b "https://www.googleapis.com/auth/spreadsheets" with
    | error err =>
      left
      refine ⟨err, ?_, ?_⟩ <;> simp [main, hcred, hcfg, eventsOf, Outcome.code?, Outcome.state]
    | ok config =>
      right
      obtain ⟨T, hne, hall, hq, hcase⟩ := getClient_spec w config
        { s with trace := s.trace ++
            [.ReadFile "credentials.json" none,
              .ConfigFromJSON "https://www.googleapis.com/auth/spreadsheets" none] }
      have hquiet : (∀ e ∈ T, mustBeFatal notFatal e = false) ∨
          ((∃ f e, eventsOf (main w) s =
              [.ReadFile "credentials.json" none,
                .ConfigFromJSON "https://www.googleapis.com/auth/spreadsheets" none] ++ T ++
                [.Fatalf f e]) ∧
            ∃ T0 x, T = T0 ++ [x] ∧ ∀ e ∈ T0, mustBeFatal notFatal e = false) := by
        rcases hq with hq | ⟨hcode, hshape⟩
        · exact Or.inl hq
        · refine Or.inr ⟨?_, hshape⟩
          rcases hcase with ⟨tok, hval, _, _⟩ | ⟨f, e, _, htr⟩
          · have hg := Outcome.eq_ret_of_value _ _ hval
            rw [hg] at hcode
            simp [Outcome.code?] at hcode
          · have hg := Outcome.eq_exit_of_code _ _ hcode
            generalize (getClient w config { s with trace := s.trace ++
                [.ReadFile "credentials.json" none,
                  .ConfigFromJSON "https://www.googleapis.com/auth/spreadsheets" none] }).state
              = s1 at hg htr
            refine ⟨f, e, ?_⟩
            simp [main, hcred, hcfg, hg, eventsOf, Outcome.state, htr]
      refine ⟨T, hne, hall, hquiet, ?_⟩
      rcases hcase with ⟨tok, hval, htr, hfiles⟩ | ⟨f, e, hcode, htr⟩
      · have hg := Outcome.eq_ret_of_value _ _ hval
        generalize (getClient w config { s with trace := s.trace ++
            [.ReadFile "credentials.json" none,
              .ConfigFromJSON "https://www.googleapis.com/auth/spreadsheets" none] }).state = s1
          at hg htr hfiles
        have hcsv : s1.files csvFile = s.files csvFile := hfiles csvFile (by decide)
        right
        cases hnew : w.New { config := config, tok := some tok } with
        | error err =>
          left
          refine ⟨err, ?_, ?_⟩ <;>
          simp [main, hcred, hcfg, hg, hnew, eventsOf, Outcome.code?, Outcome.state, htr]
        | ok srv =>
          right
          cases hcreate : w.Create srv
              { Title := "Summary", SpreadsheetId := "", SpreadsheetUrl := "" } with
          | error err =>
            left
            refine ⟨err, ?_, ?_⟩ <;>
            simp [main, hcred, hcfg, hg, hnew, hcreate, eventsOf, Outcome.code?, Outcome.state,
              htr]
          | ok resp =>
            right
            cases hfile : s.files csvFile with
            | none =>
              left
              have hp : ∀ s2 : State, s2.files csvFile = none → prepare csvFile s2 = _ :=
                fun s2 h2 => prepare_noFile s2 csvFile h2
              have hcsv1 : s1.files csvFile = none := by rw [hcsv, hfile]
              refine ⟨resp.SpreadsheetUrl, rfl, ?_, ?_⟩ <;>
              simp [main, hcred, hcfg, hg, hnew, hcreate, hp, hcsv1, eventsOf, Outcome.code?,
                Outcome.state, htr]
            | some content =>
              right
              have hcsv1 : s1.files csvFile = some content := by rw [hcsv, hfile]
              cases hra : (csv.NewReader content.toList).ReadAll with
              | mk R err =>
                cases err with
                | some e =>
                  left
                  have hp : ∀ s2 : State, s2.files csvFile = some content →
                      prepare csvFile s2 = _ :=
                    fun s2 h2 => prepare_err s2 csvFile content R e h2 hra
                  refine ⟨resp.SpreadsheetUrl, content, R, e, rfl, hra, ?_, ?_⟩ <;>
                  simp [main, hcred, hcfg, hg, hnew, hcreate, hp, hcsv1, eventsOf,
                    Outcome.code?, Outcome.state, htr]
                | none =>
                  right
                  have hp : ∀ s2 : State, s2.files csvFile = some content →
                      prepare csvFile s2 = _ :=
                    fun s2 h2 => prepare_ok s2 csvFile content R h2 hra
                  cases hbu : w.BatchUpdate srv resp.SpreadsheetId
                      { ValueInputOption := "RAW",
                        Data := [{ Range := "A1", Values := copyRecords R }] } with
                  | error err =>
                    left
                    refine ⟨srv, resp, content, R, err, hcreate, rfl, hra, ?_, ?_⟩ <;>
                    simp [main, hcred, hcfg, hg, hnew, hcreate, hp, hcsv1, hbu, eventsOf,
                      Outcome.code?, Outcome.state, htr]
                  | ok updateResp =>
                    right
                    refine ⟨srv, resp, content, R, updateResp, hcreate, rfl, hra, ?_, ?_⟩ <;>
                    simp [main, hcred, hcfg, hg, hnew, hcreate, hp, hcsv1, hbu, eventsOf,
                      Outcome.code?, Outcome.state, htr]
      · have hg := Outcome.eq_exit_of_code _ _ hcode
        generalize (getClient w config { s with trace := s.trace ++
            [.ReadFile "credentials.json" none,
              .ConfigFromJSON "https://www.googleapis.com/auth/spreadsheets" none] }).state = s1
          at hg htr
        left
        refine ⟨f, e, ?_, ?_⟩ <;>
        simp [main, hcred, hcfg, hg, eventsOf, Outcome.code?, Outcome.state, htr]

theorem collapse_replicate (n : Nat) (a : Step) (l : List Step) :
    collapse (List.replicate (n + 1) a ++ l) = collapse (a :: l) := by
  induction n with
  | zero => rfl
  | succ n ih =>
    have h : List.replicate (n + 1 + 1) a ++ l = a :: a :: (List.replicate n a ++ l) := by
      simp [List.replicate_succ]
    rw [h, collapse]
    simp only [if_true]
    simpa [List.replicate_succ] using ih

theorem filterMap_stepOf_auth (T : List Event)
    (hall : ∀ e ∈ T, stepOf e = some .Authenticate) :
    T.filterMap stepOf = List.replicate T.length .Authenticate := by
  induction T with
  | nil => rfl
  | cons e T ih =>
    have he := hall e (List.mem_cons_self _ _)
    have hT := ih (fun x hx => hall x (List.mem_cons_of_mem _ hx))
    simp [List.filterMap_cons, he, hT, List.replicate_succ]

/-- The steps of a run that got as far as `getClient`: Load-Credentials,
Authenticate, and the steps of what follows. -/
theorem steps_after_auth (T rest : List Event) (hne : T ≠ [])
    (hall : ∀ e ∈ T, stepOf e = some .Authenticate) :
    steps (
        [Event.ReadFile "credentials.json" none,
          Event.ConfigFromJSON "https://www.googleapis.com/auth/spreadsheets" none] ++ T ++ rest) =
      .LoadCredentials :: collapse (.Authenticate :: rest.filterMap stepOf) := by
  obtain ⟨n, hn⟩ : ∃ n, T.length = n + 1 := by
    cases T with
    | nil => exact absurd rfl hne
    | cons e T => exact ⟨T.length, rfl⟩
  have h1 : (
      [Event.ReadFile "credentials.json" none,
        Event.ConfigFromJSON "https://www.googleapis.com/auth/spreadsheets" none] ++ T ++ rest).filterMap stepOf =
      .LoadCredentials :: .LoadCredentials ::
        (List.replicate (n + 1) .Authenticate ++ rest.filterMap stepOf) := by
    simp [List.filterMap_append, filterMap_stepOf_auth T hall, hn, stepOf]
  rw [steps, h1, collapse]
  simp only [if_true]
  have h2 : ∀ l : List Step, collapse (.LoadCredentials :: (List.replicate (n + 1) .Authenticate ++ l)) =
      .LoadCredentials :: collapse (List.replicate (n + 1) .Authenticate ++ l) := by
    intro l
    simp [List.replicate_succ, collapse]
  rw [h2, collapse_replicate]

theorem auth_not_mem (T : List Event) (hall : ∀ e ∈ T, stepOf e = some .Authenticate)
    (x : Event) (hx : stepOf x ≠ some .Authenticate) : x ∉ T :=
  fun hmem => hx (hall x hmem)

theorem auth_filter_eq_nil (T : List Event) (hall : ∀ e ∈ T, stepOf e = some .Authenticate)
    (q : Event → Bool) (hq : ∀ e, stepOf e = some .Authenticate → q e = false) :
    T.filter q = [] := by
  rw [List.filter_eq_nil_iff]
  intro e he
  simp [hq e (hall e he)]

theorem auth_not_isRead (e : Event) (h : stepOf e = some .Authenticate) :
    isRead csvFile e = false := by
  cases e <;> simp [stepOf, isRead] at h ⊢
  case Open p err =>
    intro hp
    subst hp
    simp [tokFile, csvFile] at h

theorem auth_not_isBatchUpdate (e : Event) (h : stepOf e = some .Authenticate) :
    isBatchUpdate e = false := by
  cases e <;> simp [stepOf, isBatchUpdate] at h ⊢

theorem auth_not_isFatalf (e : Event) (h : stepOf e = some .Authenticate) :
    isFatalf e = false := by
  cases e <;> simp [stepOf, isFatalf] at h ⊢

/-- The order of the steps: in every run of `main` the steps that calls are
made for form a prefix of Load-Credentials, Authenticate, Create-Spreadsheet,
Load-CSV, Upload-Data, Report, all six when the run ends without an exit; a
run that exits does so with code 1 right after its one `log.Fatalf`, which is
its last call; after a failed create file.csv is not read, and after a failed
load of file.csv no batch update is issued. -/
theorem main_steps_in_order (w : World) (s : State) :
    steps (eventsOf (main w) s) <+: allSteps ∧
    ((main w s).code? = none → steps (eventsOf (main w) s) = allSteps) ∧
    (∀ c, (main w s).code? = some c →
      c = 1 ∧ ∃ f e, (eventsOf (main w) s).getLast? = some (.Fatalf f e)) ∧
    ((eventsOf (main w) s).filter isFatalf).length ≤ 1 ∧
    (∀ f e, .Fatalf f e ∈ eventsOf (main w) s →
      (eventsOf (main w) s).getLast? = some (.Fatalf f e)) ∧
    (∀ err, .Create "Summary" (some err) ∈ eventsOf (main w) s →
      (eventsOf (main w) s).filter (isRead csvFile) = []) ∧
    (∀ err, (.Open csvFile (some err) ∈ eventsOf (main w) s ∨
        .ReadAll csvFile (some err) ∈ eventsOf (main w) s) →
      (eventsOf (main w) s).filter isBatchUpdate = []) := by
  rcases main_spec w s with ⟨_, hcode, hev⟩ | ⟨err, hcode, hev⟩ | ⟨T, hne, hall, _, hcase⟩
  · rw [hev, hcode]
    refine ⟨?_, ?_, ?_, ?_, ?_, ?_, ?_⟩ <;>
    simp [steps, stepOf, collapse, allSteps, isFatalf, isRead, isBatchUpdate]
  · rw [hev, hcode]
    refine ⟨?_, ?_, ?_, ?_, ?_, ?_, ?_⟩ <;>
    simp [steps, stepOf, collapse, allSteps, isFatalf, isRead, isBatchUpdate]
  · have hF := auth_filter_eq_nil T hall isFatalf auth_not_isFatalf
    have hR := auth_filter_eq_nil T hall (isRead csvFile) auth_not_isRead
    have hB := auth_filter_eq_nil T hall isBatchUpdate auth_not_isBatchUpdate
    have hm1 : ∀ f e, Event.Fatalf f e ∉ T :=
      fun f e => auth_not_mem T hall _ (by simp [stepOf])
    have hm2 : ∀ t e, Event.Create t e ∉ T :=
      fun t e => auth_not_mem T hall _ (by simp [stepOf])
    have hm3 : ∀ e, Event.Open csvFile e ∉ T :=
      fun e => auth_not_mem T hall _ (by simp [stepOf, tokFile, csvFile])
    have hm4 : ∀ e, Event.ReadAll csvFile e ∉ T :=
      fun e => auth_not_mem T hall _ (by simp [stepOf])
    rcases hcase with ⟨f, e, hcode, hev⟩ | ⟨err, hcode, hev⟩ | ⟨err, hcode, hev⟩ |
      ⟨url, _, hcode, hev⟩ | ⟨url, content, recs, e, _, _, hcode, hev⟩ |
      ⟨srv, resp, content, R, err, _, _, _, hcode, hev⟩ |
      ⟨srv, resp, content, R, updateResp, _, _, _, hcode, hev⟩
    all_goals
      rw [hev, hcode, steps_after_auth T _ hne hall]
      refine ⟨?_, ?_, ?_, ?_, ?_, ?_, ?_⟩ <;>
      simp [stepOf, collapse, allSteps, isFatalf, isRead, isBatchUpdate, hF, hR, hB, hm1, hm2,
        hm3, hm4, List.filter_append, List.getLast?_cons, List.getLast?_append]

theorem main_steps_in_order_sample :
    steps (eventsOf (main sampleWorld) (firstRun "a,b\n1,2\n")) = allSteps ∧
    steps (eventsOf (main noExchangeWorld) (firstRun "a,b\n1,2\n")) =
      [.LoadCredentials, .Authenticate] :=
  ⟨(main_steps_in_order sampleWorld (firstRun "a,b\n1,2\n")).2.1 (by decide), by decide⟩

/-- Calls that need no `log.Fatalf` can be dropped from the front of a trace. -/
theorem failuresFatal_append (ex : Event → Bool) (A B : List Event)
    (h : ∀ e ∈ A, mustBeFatal ex e = false) :
    failuresFatal ex (A ++ B) = failuresFatal ex B := by
  induction A with
  | nil => rfl
  | cons a A ih =>
    have ha := h a (by simp)
    have ih1 := ih (fun e he => h e (by simp [he]))
    simp [failuresFatal, ha, ih1]

/-- The check rejects a run that goes on after a failed call, one that repeats
the failed call, and one whose `log.Fatalf` comes later than right after the
failure; it accepts a run cut by `log.Fatalf` at the failure. -/
theorem failuresFatal_samples :
    failuresFatal notFatal
      [.New (some (.lib "x")), .Create "Summary" none] = false ∧
    failuresFatal notFatal
      [.New (some (.lib "x")), .New none, .Create "Summary" none] = false ∧
    failuresFatal notFatal
      [.New (some (.lib "x")), .LogPrintf "Created %s" "u", .Fatalf "f" (.lib "x")] = false ∧
    failuresFatal notFatal
      [.New (some (.lib "x")), .Fatalf "f" (.lib "x"), .Create "Summary" none] = false ∧
    failuresFatal notFatal [.New (some (.lib "x")), .Fatalf "f" (.lib "x")] = true := by
  decide

/-- In every run of `main`, each call that fails is followed by `log.Fatalf`
and by nothing else, with two kinds of exception: a read of token.json, which
`getClient` answers with the authorization flow, and the write of the token,
whose error `saveToken` drops. -/
theorem main_failures_fatal (w : World) (s : State) :
    failuresFatal notFatal (eventsOf (main w) s) = true := by
  have hhead : ∀ T : List Event, (∀ e ∈ T, mustBeFatal notFatal e = false) →
      ∀ e ∈ [Event.ReadFile "credentials.json" none,
        Event.ConfigFromJSON "https://www.googleapis.com/auth/spreadsheets" none] ++ T,
        mustBeFatal notFatal e = false := by
    intro T hT e he
    simp only [List.mem_append, List.mem_cons, List.mem_singleton, List.not_mem_nil,
      or_false] at he
    rcases he with (he | he) | he
    · subst he; rfl
    · subst he; rfl
    · exact hT e he
  rcases main_spec w s with ⟨_, _, hev⟩ | ⟨err, _, hev⟩ | ⟨T, _, _, hq, hcase⟩
  · rw [hev]; rfl
  · rw [hev]; rfl
  · rcases hq with hq | ⟨⟨f, e, hev⟩, T0, x, rfl, hq0⟩
    · rcases hcase with ⟨f, e, _, hev⟩ | ⟨err, _, hev⟩ | ⟨err, _, hev⟩ | ⟨url, _, _, hev⟩ |
        ⟨url, content, recs, e, _, _, _, hev⟩ | ⟨srv, resp, content, R, err, _, _, _, _, hev⟩ |
        ⟨srv, resp, content, R, updateResp, _, _, _, _, hev⟩ <;>
      · rw [hev, failuresFatal_append notFatal _ _ (hhead T hq)]
        rfl
    · have hshape : eventsOf (main w) s =
          ([Event.ReadFile "credentials.json" none,
            Event.ConfigFromJSON "https://www.googleapis.com/auth/spreadsheets" none] ++ T0) ++
            [x, .Fatalf f e] := by
        rw [hev]; simp
      rw [hshape, failuresFatal_append notFatal _ _ (hhead T0 hq0)]
      simp [failuresFatal, mustBeFatal, Event.err?]

/-- C8, on the code: in a first run in which the write of the token fails (no
space left on the device), the Authenticate step fails to persist the token:
the `Encode` call on token.json returns an error. `saveToken` drops that
error, so the run is not cut there: the client is built and the steps
Create-Spreadsheet, Load-CSV, Upload-Data and Report are all performed after
the failure, and the process ends without an exit, token.json left empty.
The run does not pass the check that every failed call other than a read of
token.json is followed by `log.Fatalf` and by nothing else. -/
theorem main_goes_on_after_failed_persistence :
    eventsOf (main diskFullWorld) (firstRun "a,b\n1,2\n") =
      [.ReadFile "credentials.json" none,
        .ConfigFromJSON "https://www.googleapis.com/auth/spreadsheets" none,
        .Open tokFile (some (.os "open" tokFile)),
        .Call "getTokenFromWeb",
        .Printf
          "Go to the following link in your browser then type the authorization code: \n%v\n"
          "https://accounts.example/auth",
        .Scan none,
        .Exchange "code" none,
        .Call "saveToken",
        .Printf "Saving credential file to: %s\n" tokFile,
        .OpenFile tokFile none,
        .Encode tokFile sampleToken (some (.lib "no space left on device")),
        .Client (some sampleToken),
        .New none,
        .Create "Summary" none,
        .LogPrintf "Created %s" "url1",
        .Open csvFile none,
        .ReadAll csvFile none,
        .BatchUpdate "id1"
          { ValueInputOption := "RAW",
            Data := [{ Range := "A1",
                       Values := Slice.mk [Slice.mk [.str "a", .str "b"],
                         Slice.mk [.str "1", .str "2"]] }] } none,
        .PrintResp { SpreadsheetId := "id1", TotalUpdatedCells := 4 }] ∧
    steps (eventsOf (main diskFullWorld) (firstRun "a,b\n1,2\n")) = allSteps ∧
    (main diskFullWorld (firstRun "a,b\n1,2\n")).code? = none ∧
    (main diskFullWorld (firstRun "a,b\n1,2\n")).state.files tokFile = some "" ∧
    failuresFatal isTokenRead (eventsOf (main diskFullWorld) (firstRun "a,b\n1,2\n")) =
      false := by
  decide

/-- C5: every batch update a run of `main` issues is the only one of the run;
its request has input option "RAW" and exactly one value range, with range
"A1" and as values the grid `prepare` returns for file.csv; it is addressed to
the spreadsheet id the create call returned. For file.csv containing
`a,b\n1,2\n` the grid is `[["a","b"],["1","2"]]`. -/
theorem main_batchUpdate_request (w : World) (s : State) (id : String)
    (req : BatchUpdateValuesRequest) (err : Option Error)
    (h : Event.BatchUpdate id req err ∈ eventsOf (main w) s) :
    ∃ G : Slice (Slice Iface),
      (prepare csvFile s).value? = some (G, none) ∧
      req = { ValueInputOption := "RAW", Data := [{ Range := "A1", Values := G }] } ∧
      (∃ srv resp,
        w.Create srv { Title := "Summary", SpreadsheetId := "", SpreadsheetUrl := "" } =
          .ok resp ∧ id = resp.SpreadsheetId) ∧
      (eventsOf (main w) s).filter isBatchUpdate = [.BatchUpdate id req err] ∧
      (s.files csvFile = some "a,b\n1,2\n" →
        G = Slice.mk [Slice.mk [.str "a", .str "b"], Slice.mk [.str "1", .str "2"]]) := by
  have hgrid : ∀ (content : String) (R : List (List String)),
      s.files csvFile = some content → (csv.NewReader content.toList).ReadAll = (R, none) →
      (prepare csvFile s).value? = some (copyRecords R, none) ∧
      (s.files csvFile = some "a,b\n1,2\n" →
        copyRecords R =
          Slice.mk [Slice.mk [.str "a", .str "b"], Slice.mk [.str "1", .str "2"]]) := by
    intro content R hfile hra
    refine ⟨by rw [prepare_ok s csvFile content R hfile hra]; rfl, ?_⟩
    intro hc
    rw [hfile] at hc
    cases hc
    have hR : (csv.NewReader "a,b\n1,2\n".toList).ReadAll = ([["a", "b"], ["1", "2"]], none) := by
      decide
    rw [hR] at hra
    cases hra
    decide
  rcases main_spec w s with ⟨_, hcode, hev⟩ | ⟨err1, hcode, hev⟩ | ⟨T, hne, hall, _, hcase⟩
  · rw [hev] at h; simp at h
  · rw [hev] at h; simp at h
  · have hB := auth_filter_eq_nil T hall isBatchUpdate auth_not_isBatchUpdate
    have hm : ∀ i r e, Event.BatchUpdate i r e ∉ T :=
      fun i r e => auth_not_mem T hall _ (by simp [stepOf])
    rcases hcase with ⟨f, e, hcode, hev⟩ | ⟨err1, hcode, hev⟩ | ⟨err1, hcode, hev⟩ |
      ⟨url, _, hcode, hev⟩ | ⟨url, content, recs, e, _, _, hcode, hev⟩ |
      ⟨srv, resp, content, R, err1, hcreate, hfile, hra, hcode, hev⟩ |
      ⟨srv, resp, content, R, updateResp, hcreate, hfile, hra, hcode, hev⟩
    · rw [hev] at h; simp [hm] at h
    · rw [hev] at h; simp [hm] at h
    · rw [hev] at h; simp [hm] at h
    · rw [hev] at h; simp [hm] at h
    · rw [hev] at h; simp [hm] at h
    · rw [hev] at h ⊢
      simp [hm] at h
      obtain ⟨h1, h2, h3⟩ := h
      subst h1 h2 h3
      obtain ⟨hg1, hg2⟩ := hgrid content R hfile hra
      refine ⟨copyRecords R, hg1, rfl, ⟨srv, resp, hcreate, rfl⟩, ?_, hg2⟩
      simp [List.filter_append, hB, isBatchUpdate]
    · rw [hev] at h ⊢
      simp [hm] at h
      obtain ⟨h1, h2, h3⟩ := h
      subst h1 h2 h3
      obtain ⟨hg1, hg2⟩ := hgrid content R hfile hra
      refine ⟨copyRecords R, hg1, rfl, ⟨srv, resp, hcreate, rfl⟩, ?_, hg2⟩
      simp [List.filter_append, hB, isBatchUpdate]

theorem main_batchUpdate_request_witness :
    Event.BatchUpdate "id1"
        { ValueInputOption := "RAW",
          Data := [{ Range := "A1",
                     Values := Slice.mk [Slice.mk [.str "a", .str "b"],
                       Slice.mk [.str "1", .str "2"]] }] } none ∈
      eventsOf (main sampleWorld) (firstRun "a,b\n1,2\n") ∧
    ∃ G : Slice (Slice Iface),
      (prepare csvFile (firstRun "a,b\n1,2\n")).value? = some (G, none) ∧
      G = Slice.mk [Slice.mk [.str "a", .str "b"], Slice.mk [.str "1", .str "2"]] := by
  refine ⟨by decide, ?_⟩
  obtain ⟨G, h1, _, _, _, h5⟩ :=
    main_batchUpdate_request sampleWorld (firstRun "a,b\n1,2\n") "id1"
      { ValueInputOption := "RAW",
        Data := [{ Range := "A1",
                   Values := Slice.mk [Slice.mk [.str "a", .str "b"],
                     Slice.mk [.str "1", .str "2"]] }] } none (by decide)
  exact ⟨G, h1, h5 (by decide)⟩

/-- C6: when file.csv is empty, `prepare` returns a nil error and the nil
grid, which has zero rows, and every run of `main` that got past the create
call issues exactly one batch update, whose one value range has that empty
grid as values. -/
theorem main_empty_csv (w : World) (s : State) (hempty : s.files csvFile = some "") :
    (prepare csvFile s).value? = some (Slice.nil, none) ∧
    (Slice.nil : Slice (Slice Iface)).len = 0 ∧
    (Event.Create "Summary" none ∈ eventsOf (main w) s →
      ∃ id err,
        (eventsOf (main w) s).filter isBatchUpdate =
          [.BatchUpdate id
            { ValueInputOption := "RAW", Data := [{ Range := "A1", Values := Slice.nil }] }
            err]) := by
  have hR : (csv.NewReader "".toList).ReadAll = ([], none) := by decide
  have hnil : copyRecords [] = Slice.nil := rfl
  refine ⟨by rw [prepare_ok s csvFile "" [] hempty hR]; rfl, rfl, ?_⟩
  intro h
  rcases main_spec w s with ⟨_, hcode, hev⟩ | ⟨err1, hcode, hev⟩ | ⟨T, hne, hall, _, hcase⟩
  · rw [hev] at h; simp at h
  · rw [hev] at h; simp at h
  · have hB := auth_filter_eq_nil T hall isBatchUpdate auth_not_isBatchUpdate
    have hm : ∀ t e, Event.Create t e ∉ T :=
      fun t e => auth_not_mem T hall _ (by simp [stepOf])
    rcases hcase with ⟨f, e, hcode, hev⟩ | ⟨err1, hcode, hev⟩ | ⟨err1, hcode, hev⟩ |
      ⟨url, hfile, hcode, hev⟩ | ⟨url, content, recs, e, hfile, hra, hcode, hev⟩ |
      ⟨srv, resp, content, R, err1, hcreate, hfile, hra, hcode, hev⟩ |
      ⟨srv, resp, content, R, updateResp, hcreate, hfile, hra, hcode, hev⟩
    · rw [hev] at h; simp [hm] at h
    · rw [hev] at h; simp [hm] at h
    · rw [hev] at h; simp [hm] at h
    · rw [hempty] at hfile; cases hfile
    · rw [hempty] at hfile; cases hfile
      rw [hR] at hra; cases hra
    · rw [hempty] at hfile; cases hfile
      rw [hR] at hra; cases hra
      refine ⟨resp.SpreadsheetId, some err1, ?_⟩
      rw [hev, hnil]
      simp [List.filter_append, hB, isBatchUpdate]
    · rw [hempty] at hfile; cases hfile
      rw [hR] at hra; cases hra
      refine ⟨resp.SpreadsheetId, none, ?_⟩
      rw [hev, hnil]
      simp [List.filter_append, hB, isBatchUpdate]

theorem main_empty_csv_witness :
    (firstRun "").files csvFile = some "" ∧
    (prepare csvFile (firstRun "")).value? = some (Slice.nil, none) ∧
    ∃ id err,
      (eventsOf (main sampleWorld) (firstRun "")).filter isBatchUpdate =
        [.BatchUpdate id
          { ValueInputOption := "RAW", Data := [{ Range := "A1", Values := Slice.nil }] }
          err] :=
  ⟨by decide, (main_empty_csv sampleWorld (firstRun "") (by decide)).1,
    (main_empty_csv sampleWorld (firstRun "") (by decide)).2.2 (by decide)⟩

end GoCsv
